import Mathlib

/-!
# REBOUND particle routines

A shallow embedding of `src/particle.c` (the particle store of the REBOUND
N-body code) and the properties of its operations: `reb_add`,
`reb_get_rootbox_for_particle`, `reb_remove_all`, `reb_remove` and
`reb_remove_by_id`.

Conventions of the embedding.

* C `int` is `Int`. The counters `N` and `allocatedN` are assumed to stay inside the
  range of `int`. In `reb_get_rootbox_for_particle`, whose operands are not bounded by
  the store, every conversion to `int` and every `int` operation is checked against
  `INT_MIN` and `INT_MAX` (32 bits) and is `none` outside, as C leaves it undefined.
* C `double` is `ℚ` with exact arithmetic: rounding is not modelled. What is proved of
  `reb_get_rootbox_for_particle` is proved for coordinates taken as exact rationals.
* The heap block behind `r->particles` is a `List reb_particle` whose length is
  the number of allocated slots (`NULL` is the empty list). A read or write
  outside the block, like a division by zero, is undefined in C: the functions
  then return `none`.
* `realloc` is assumed to succeed. It keeps the old contents, and the slots it
  adds hold indeterminate values, which the environment supplies.
* The text written by `fprintf` and `reb_warning` is not part of the state and
  is left out.
* Calls into code outside `particle.c` that only notify a collaborator are
  recorded in the state: `tree_added` lists the indices handed to
  `reb_tree_add_particle_to_tree`, `send_queue` the pairs handed to
  `communication_mpi_add_particle_to_send_queue`.
-/

namespace Rebound

/-- Modelled from the spec: `struct reb_particle` is declared in `rebound.h`,
which is not among the sources. The fields are the ones the spec lists (position,
velocity, mass, radius, identifier, auxiliary-data slot, owning simulation), under
the names `particle.c` uses. A pointer is `none` for `NULL` and `some a` for the
address `a`. -/
structure reb_particle where
  x : ℚ
  y : ℚ
  z : ℚ
  vx : ℚ
  vy : ℚ
  vz : ℚ
  m : ℚ
  r : ℚ
  id : Int
  ap : Option Nat
  sim : Option Nat
deriving DecidableEq

/-- Modelled from the spec: `struct reb_vec3d` (the type of `boxsize`) is declared
in `rebound.h`, which is not among the sources. -/
structure reb_vec3d where
  x : ℚ
  y : ℚ
  z : ℚ
deriving DecidableEq

/-- Modelled from the spec: `struct reb_simulation` is declared in `rebound.h`,
which is not among the sources. The fields are the ones `particle.c` reads or
writes. `self` is the address `r` of the structure (what `particles[i].sim = r`
stores); `max_radius_0` and `max_radius_1` are `max_radius[0]` and
`max_radius[1]`; `gravity_minimum_mass` is the global of that name;
`tree_added` and `send_queue` record the calls to the tree and to the MPI
send queue. -/
structure reb_simulation where
  self : Nat
  N : Int
  allocatedN : Int
  N_active : Int
  N_var : Int
  particles : List reb_particle
  gravity : Int
  collision : Int
  max_radius_0 : ℚ
  max_radius_1 : ℚ
  root_size : ℚ
  boxsize : reb_vec3d
  root_nx : Int
  root_ny : Int
  root_nz : Int
  gravity_minimum_mass : ℚ
  tree_added : List Int
  send_queue : List (reb_particle × Int)
deriving DecidableEq

/-- What `particle.c` takes from its build and from the rest of the program:
the compile-time switches (`COLLISIONS_NONE`, `GRAVITY_GRAPE`, `MPI`), the
enumeration constants of `rebound.h`, the boundary predicate of `boundary.c`,
the globals of the MPI build, and the contents of freshly allocated slots. -/
structure Env where
  COLLISIONS_NONE : Bool
  GRAVITY_GRAPE : Bool
  MPI : Bool
  REB_GRAVITY_TREE : Int
  REB_COLLISION_TREE : Int
  reb_boundary_particle_is_in_box : reb_simulation → reb_particle → Int
  root_n : Int
  mpi_num : Int
  mpi_id : Int
  indeterminate : Nat → reb_particle

/-- The read `ps[i]`; `none` outside the block. -/
def load (ps : List reb_particle) (i : Int) : Option reb_particle :=
  if 0 ≤ i then ps[i.toNat]? else none

/-- The write `ps[i] = p`; `none` outside the block. -/
def store (ps : List reb_particle) (i : Int) (p : reb_particle) : Option (List reb_particle) :=
  if 0 ≤ i ∧ i < ps.length then some (ps.set i.toNat p) else none

/-- The call `realloc(ps, sizeof(struct reb_particle)*n)`: a block of `n` slots that
starts with the old contents; slot `k` of the added part holds `E.indeterminate k`. -/
def realloc (E : Env) (ps : List reb_particle) (n : Int) : List reb_particle :=
  ps.take n.toNat ++ (List.range' ps.length (n.toNat - ps.length)).map E.indeterminate

/-- The loop `while (r->allocatedN<=r->N){ r->allocatedN += 128; r->particles = realloc(..); }`
of `reb_add_local`. -/
def reb_add_local_grow (E : Env) (s : reb_simulation) : reb_simulation :=
  if s.allocatedN ≤ s.N then
    reb_add_local_grow E
      { s with allocatedN := s.allocatedN + 128,
               particles := realloc E s.particles (s.allocatedN + 128) }
  else s
termination_by (s.N + 1 - s.allocatedN).toNat
decreasing_by simp_wf; omega

/-- The function `reb_add_local`: the boundary check, the growth loop, the write of `pt`
into slot `N` with `ap = NULL` and `sim = r`, the call of the tree when the tree code
is in use, and `N++`. -/
def reb_add_local (E : Env) (s : reb_simulation) (pt : reb_particle) : Option reb_simulation :=
  if E.reb_boundary_particle_is_in_box s pt = 0 then
    some s
  else
    let s1 := reb_add_local_grow E s
    match store s1.particles s1.N { pt with ap := none, sim := some s1.self } with
    | none => none
    | some ps =>
      let s2 := { s1 with particles := ps }
      let s3 :=
        if s2.gravity = E.REB_GRAVITY_TREE ∨ s2.collision = E.REB_COLLISION_TREE then
          { s2 with tree_added := s2.tree_added ++ [s2.N] }
        else s2
      some { s3 with N := s3.N + 1 }

/-- The least value of a C `int` (32 bits, as on the platforms REBOUND builds on). -/
def INT_MIN : Int := -2147483648

/-- The largest value of a C `int` (32 bits). -/
def INT_MAX : Int := 2147483647

/-- An `int` computation whose mathematical value is `z`: that value when it fits into an
`int`, and `none` when it does not (a signed overflow, or the conversion of an
out-of-range `double`, both undefined in C). -/
def int_result (z : Int) : Option Int :=
  if INT_MIN ≤ z ∧ z ≤ INT_MAX then some z else none

/-- One axis of `reb_get_rootbox_for_particle`, the expression
`((int)floor((c + b/2.)/root_size) + n) % n` for the coordinate `c`, the box length `b`
and the root count `n`. The arithmetic on `double` is taken as exact (no rounding); the
conversion to `int` and the sum are `none` outside the range of `int`; `%` is the
truncating remainder of C, `none` for a zero divisor and for `INT_MIN % -1`. -/
def rootbox_axis (c b root_size : ℚ) (n : Int) : Option Int :=
  if root_size = 0 ∨ n = 0 then none
  else
    match int_result ⌊(c + b / 2) / root_size⌋ with
    | none => none
    | some f =>
      match int_result (f + n) with
      | none => none
      | some g => if g = INT_MIN ∧ n = -1 then none else some (Int.tmod g n)

/-- The function `reb_get_rootbox_for_particle`. The three axis indices are computed in the
order of the source, then `(k*root_ny + j)*root_nx + i` in `int` arithmetic: each
product and sum is `none` when it leaves the range of `int`. The result is `none`
wherever C leaves the computation undefined. The coordinates and the quotient are exact
rationals: the rounding of `double` arithmetic is not modelled. -/
def reb_get_rootbox_for_particle (s : reb_simulation) (pt : reb_particle) : Option Int :=
  if s.root_size = -1 then some 0
  else
    match rootbox_axis pt.x s.boxsize.x s.root_size s.root_nx with
    | none => none
    | some i =>
      match rootbox_axis pt.y s.boxsize.y s.root_size s.root_ny with
      | none => none
      | some j =>
        match rootbox_axis pt.z s.boxsize.z s.root_size s.root_nz with
        | none => none
        | some k =>
          match int_result (k * s.root_ny) with
          | none => none
          | some a =>
            match int_result (a + j) with
            | none => none
            | some b =>
              match int_result (b * s.root_nx) with
              | none => none
              | some d => int_result (d + i)

/-- The part of `reb_add` before the ownership gate: the update of `max_radius`
(unless `COLLISIONS_NONE`) and of `gravity_minimum_mass` (if `GRAVITY_GRAPE`). -/
def reb_add_tracked (E : Env) (s : reb_simulation) (pt : reb_particle) : reb_simulation :=
  let s1 :=
    if E.COLLISIONS_NONE then s
    else if pt.r ≥ s.max_radius_0 then
      { s with max_radius_1 := s.max_radius_0, max_radius_0 := pt.r }
    else if pt.r ≥ s.max_radius_1 then
      { s with max_radius_1 := pt.r }
    else s
  if E.GRAVITY_GRAPE then
    if pt.m < s1.gravity_minimum_mass then { s1 with gravity_minimum_mass := pt.m } else s1
  else s1

/-- The owner `proc_id = rootbox/(root_n/mpi_num)` computed by the MPI build of `reb_add`;
`/` is the truncating division of C, `none` on a division by zero. -/
def reb_add_proc_id (E : Env) (s : reb_simulation) (pt : reb_particle) : Option Int :=
  match reb_get_rootbox_for_particle s pt with
  | none => none
  | some rootbox =>
    if E.mpi_num = 0 then none
    else
      let root_n_per_node := Int.tdiv E.root_n E.mpi_num
      if root_n_per_node = 0 then none else some (Int.tdiv rootbox root_n_per_node)

/-- The function `reb_add`. Its first statement, `if (r->N_var) reb_warning(..)`, only
writes a warning; the add goes on whatever `N_var` is. -/
def reb_add (E : Env) (s : reb_simulation) (pt : reb_particle) : Option reb_simulation :=
  let s1 := reb_add_tracked E s pt
  if E.MPI then
    match reb_add_proc_id E s1 pt with
    | none => none
    | some proc_id =>
      if proc_id ≠ E.mpi_id ∧ s1.N ≥ s1.N_active then
        some { s1 with send_queue := s1.send_queue ++ [(pt, proc_id)] }
      else reb_add_local E s1 pt
  else reb_add_local E s1 pt

/-- The function `reb_remove_all`. -/
def reb_remove_all (s : reb_simulation) : reb_simulation :=
  { s with N := 0, allocatedN := 0, N_active := -1, N_var := 0, particles := [] }

/-- The loop `for(int j=index; j<r->N; j++){ particles[j] = particles[j+1]; }` of
`reb_remove`, from `j` on. -/
def reb_remove_shift (ps : List reb_particle) (N : Int) (j : Int) : Option (List reb_particle) :=
  if j < N then
    match load ps (j + 1) with
    | none => none
    | some p =>
      match store ps j p with
      | none => none
      | some ps1 => reb_remove_shift ps1 N (j + 1)
  else some ps
termination_by (N - j).toNat
decreasing_by simp_wf; omega

/-- The function `reb_remove`: the returned status and the state it leaves. The three
guards come in the order of the source: `N==1` (status 1), `index >= N` (status 0),
`N_var` (status 0); each of them returns without writing to the state. -/
def reb_remove (s : reb_simulation) (index keepSorted : Int) : Option (Int × reb_simulation) :=
  if s.N = 1 then some (1, s)
  else if index ≥ s.N then some (0, s)
  else if s.N_var ≠ 0 then some (0, s)
  else
    let s1 := { s with N := s.N - 1 }
    if keepSorted ≠ 0 then
      match reb_remove_shift s1.particles s1.N index with
      | none => none
      | some ps => some (1, { s1 with particles := ps })
    else
      match load s1.particles s1.N with
      | none => none
      | some p =>
        match store s1.particles index p with
        | none => none
        | some ps => some (1, { s1 with particles := ps })

/-- The loop of `reb_remove_by_id`, from `i` on, and the status it returns. -/
def reb_remove_by_id_scan (s : reb_simulation) (id keepSorted : Int) (i : Int) :
    Option (Int × reb_simulation) :=
  if i < s.N then
    match load s.particles i with
    | none => none
    | some p =>
      if p.id = id then reb_remove s i keepSorted
      else reb_remove_by_id_scan s id keepSorted (i + 1)
  else some (0, s)
termination_by (s.N - i).toNat
decreasing_by simp_wf; omega

/-- The function `reb_remove_by_id`: the value of `success` it returns, and the state. The
scan starts at `i = 0`; the text printed when `success` is 0 is left out. -/
def reb_remove_by_id (s : reb_simulation) (id keepSorted : Int) : Option (Int × reb_simulation) :=
  reb_remove_by_id_scan s id keepSorted 0

/-- The store invariant of the data model: `0 ≤ N ≤ allocatedN`, and the block behind
`particles` has `allocatedN` slots. -/
def store_ok (s : reb_simulation) : Prop :=
  0 ≤ s.N ∧ s.N ≤ s.allocatedN ∧ (s.particles.length : Int) = s.allocatedN

instance (s : reb_simulation) : Decidable (store_ok s) := by
  unfold store_ok; infer_instance

/-- The live particles: the entries at the indices `0 .. N-1`. -/
def live (s : reb_simulation) : List reb_particle :=
  s.particles.take s.N.toNat

/-- Modelled from the spec: the store of a freshly initialised simulation (the function
that creates a simulation is not among the sources): no particle, no capacity, no block,
`N_active = -1` and `N_var = 0`. -/
def fresh_store (f : reb_simulation) : Prop :=
  f.N = 0 ∧ f.allocatedN = 0 ∧ f.N_active = -1 ∧ f.N_var = 0 ∧ f.particles = []

instance (f : reb_simulation) : Decidable (fresh_store f) := by
  unfold fresh_store; infer_instance

/-! ## Sample data -/

/-- A particle at the origin with the given radius and identifier. -/
def sample_particle (r : ℚ) (id : Int) : reb_particle :=
  { x := 0, y := 0, z := 0, vx := 0, vy := 0, vz := 0, m := 1, r := r, id := id,
    ap := some 7, sim := none }

/-- A simulation at address 1 holding the given particles in a block without spare
slots, with no root grid configured. -/
def sample_sim (ps : List reb_particle) : reb_simulation :=
  { self := 1, N := ps.length, allocatedN := ps.length, N_active := -1, N_var := 0,
    particles := ps, gravity := 0, collision := 0, max_radius_0 := 0, max_radius_1 := 0,
    root_size := -1, boxsize := { x := 10, y := 10, z := 10 },
    root_nx := 1, root_ny := 1, root_nz := 1, gravity_minimum_mass := 0,
    tree_added := [], send_queue := [] }

/-- A single-process build whose box is the cube `-5 ≤ x, y, z < 5`. -/
def sample_env : Env :=
  { COLLISIONS_NONE := false, GRAVITY_GRAPE := false, MPI := false,
    REB_GRAVITY_TREE := 3, REB_COLLISION_TREE := 2,
    reb_boundary_particle_is_in_box := fun _ p =>
      if -5 ≤ p.x ∧ p.x < 5 ∧ -5 ≤ p.y ∧ p.y < 5 ∧ -5 ≤ p.z ∧ p.z < 5 then 1 else 0,
    root_n := 1, mpi_num := 1, mpi_id := 0,
    indeterminate := fun _ => sample_particle 0 0 }

/-- The MPI build on process 1 of 2, with two root boxes. -/
def sample_mpi_env : Env :=
  { sample_env with MPI := true, root_n := 2, mpi_num := 2, mpi_id := 1 }

/-- Three particles; the first and the last carry the identifier 10. -/
def sample_three : List reb_particle :=
  [sample_particle 1 10, sample_particle 2 20, sample_particle 3 10]

/-- The three particles of `sample_three` while `N_var = 2`. -/
def sample_megno : reb_simulation :=
  { sample_sim sample_three with N_var := 2 }

/-- A caller's loop `for each pt of pts: reb_add(r, pt)`: the adds in sequence, `none` as
soon as one of them is undefined. -/
def reb_add_all (E : Env) (s : reb_simulation) (pts : List reb_particle) :
    Option reb_simulation :=
  pts.foldlM (reb_add E) s

/-- An empty simulation with box 10 x 10 x 10, `root_size = 5` and a 2 x 2 x 2 root grid. -/
def sample_grid : reb_simulation :=
  { sample_sim [] with root_size := 5, root_nx := 2, root_ny := 2, root_nz := 2 }

/-- A particle at the position `(x, y, z)`. -/
def sample_at (x y z : ℚ) : reb_particle :=
  { sample_particle 1 1 with x := x, y := y, z := z }

/-- The reading of "`a` is the largest and `b` the second largest element, counting
duplicates, of the multiset `l`": `l` is a rearrangement of `a :: b :: rest` with
`b ≤ a` and nothing in `rest` above `b`. -/
def two_largest (l : List ℚ) (a b : ℚ) : Prop :=
  ∃ rest, l.Perm (a :: b :: rest) ∧ b ≤ a ∧ ∀ x ∈ rest, x ≤ b

/-- A run of 130 particles at the origin. -/
def sample_run : List reb_particle :=
  List.replicate 130 (sample_particle 1 40)

/-- Three particles, all of them active: `N_active = N = 3`. -/
def sample_all_active : reb_simulation :=
  { sample_sim sample_three with N_active := 3 }

/-- Three particles, the first of them active: `N_active = 1`. -/
def sample_one_active : reb_simulation :=
  { sample_sim sample_three with N_active := 1 }

/-! ## Reads and writes at natural indices -/

theorem load_natCast (ps : List reb_particle) (i : Nat) : load ps (i : Int) = ps[i]? := by
  simp [load]

theorem store_natCast (ps : List reb_particle) (i : Nat) (p : reb_particle)
    (h : i < ps.length) : store ps (i : Int) p = some (ps.set i p) := by
  simp [store, h]

/-- The shifting loop of `reb_remove`, run for `d` rounds from slot `j` inside the block:
slot `i` of the range `j .. j+d-1` receives the old slot `i+1`, the others keep theirs. -/
theorem reb_remove_shift_spec (d : Nat) :
    ∀ (ps : List reb_particle) (j : Nat), j + d < ps.length →
      ∃ ps', reb_remove_shift ps ((j + d : Nat) : Int) (j : Int) = some ps' ∧
        ps'.length = ps.length ∧
        ∀ i : Nat, ps'[i]? = if j ≤ i ∧ i < j + d then ps[i + 1]? else ps[i]? := by
  induction d with
  | zero =>
    intro ps j _
    refine ⟨ps, ?_, rfl, ?_⟩
    · rw [reb_remove_shift]; simp
    · intro i
      have h : ¬ (j ≤ i ∧ i < j + 0) := by omega
      simp only [h, if_false]
  | succ d ih =>
    intro ps j hlen
    have hj1 : j + 1 < ps.length := by omega
    obtain ⟨p, hp⟩ : ∃ p, ps[j + 1]? = some p := ⟨ps[j + 1], by simp [hj1]⟩
    have hload : load ps ((j : Int) + 1) = some p := by
      have := load_natCast ps (j + 1)
      push_cast at this
      rw [this, hp]
    have hstore : store ps (j : Int) p = some (ps.set j p) :=
      store_natCast ps j p (by omega)
    obtain ⟨ps', hrun, hlen', hget⟩ := ih (ps.set j p) (j + 1) (by simp; omega)
    refine ⟨ps', ?_, by simpa using hlen', ?_⟩
    · rw [reb_remove_shift]
      have hc : (j : Int) < ((j + (d + 1) : Nat) : Int) := by push_cast; omega
      simp only [hc, if_true, hload, hstore]
      have e : j + (d + 1) = j + 1 + d := by omega
      rw [e]
      have e2 : (j : Int) + 1 = ((j + 1 : Nat) : Int) := by push_cast; rfl
      rw [e2]
      exact hrun
    · intro i
      rw [hget i]
      by_cases h1 : i = j
      · subst h1
        have : ¬ (i + 1 ≤ i ∧ i < i + 1 + d) := by omega
        simp [this, hp, List.getElem?_set]
        omega
      · by_cases h2 : j + 1 ≤ i ∧ i < j + 1 + d
        · have h3 : j ≤ i ∧ i < j + (d + 1) := by omega
          simp only [h2, h3, and_self, if_true]
          rw [List.getElem?_set]
          have : ¬ j = i + 1 := by omega
          simp [this]
        · have h3 : ¬ (j ≤ i ∧ i < j + (d + 1)) := by omega
          simp only [h2, h3, if_false]
          rw [List.getElem?_set]
          have : ¬ j = i := by omega
          simp [this]


/-- Overwriting slot `j` of `init ++ [p]` with its last element `p` and dropping the last
slot leaves a rearrangement of the list without its entry `j`. -/
theorem set_last_perm_eraseIdx (init : List reb_particle) (p : reb_particle) (j : Nat)
    (hj : j ≤ init.length) :
    (init.set j p).Perm ((init ++ [p]).eraseIdx j) := by
  rcases Nat.lt_or_ge j init.length with h | h
  · rw [List.eraseIdx_append_of_lt_length h, List.set_eq_take_append_cons_drop,
      List.eraseIdx_eq_take_drop_succ]
    simp only [h, if_true]
    exact List.perm_middle.trans (List.perm_append_singleton _ _).symm
  · have e : j = init.length := by omega
    subst e
    rw [List.set_eq_take_append_cons_drop, List.eraseIdx_eq_take_drop_succ]
    simp

/-- The order-preserving branch of `reb_remove` past its guards: status 1, `N` lowered by 1,
and the live sequence loses exactly its entry `index`. -/
theorem remove_shift_case (s : reb_simulation) (index keepSorted : Int)
    (hok : store_ok s) (hN : 2 ≤ s.N) (hvar : s.N_var = 0)
    (h0 : 0 ≤ index) (h1 : index < s.N) (hk : keepSorted ≠ 0) :
    ∃ s', reb_remove s index keepSorted = some (1, s') ∧ s'.N = s.N - 1 ∧
      live s' = (live s).eraseIdx index.toNat := by
  obtain ⟨_, hcap, hlen⟩ := hok
  obtain ⟨j, rfl⟩ := Int.eq_ofNat_of_zero_le h0
  obtain ⟨m, hm⟩ : ∃ m : Nat, s.N = (m : Int) + 1 := ⟨(s.N - 1).toNat, by omega⟩
  obtain ⟨d, hd⟩ : ∃ d : Nat, m = j + d := ⟨m - j, by omega⟩
  have hlt : j + d < s.particles.length := by omega
  obtain ⟨ps', hrun, _, hget⟩ := reb_remove_shift_spec d s.particles j hlt
  refine ⟨{ s with N := s.N - 1, particles := ps' }, ?_, rfl, ?_⟩
  · have c1 : ¬ s.N = 1 := by omega
    have c2 : ¬ (j : Int) ≥ s.N := by omega
    have e : s.N - 1 = ((j + d : Nat) : Int) := by omega
    simp only [reb_remove, c1, c2, hvar, hk, if_false, if_true, ne_eq, not_true_eq_false,
      not_false_eq_true, e, hrun]
  · have e1 : (s.N - 1).toNat = j + d := by omega
    have e2 : s.N.toNat = j + d + 1 := by omega
    simp only [live, e1, e2, Int.toNat_ofNat]
    apply List.ext_getElem?
    intro i
    rw [List.getElem?_take, List.getElem?_eraseIdx, hget i, List.getElem?_take,
      List.getElem?_take]
    by_cases a : i < j
    · have b : i < j + d := by omega
      have c : ¬ (j ≤ i ∧ i < j + d) := by omega
      have c2 : i < j + d + 1 := by omega
      simp [a, b, c, c2]
    · by_cases b : i < j + d
      · have c : j ≤ i ∧ i < j + d := by omega
        have c2 : i + 1 < j + d + 1 := by omega
        simp [a, b, c, c2]
      · have c2 : ¬ i + 1 < j + d + 1 := by omega
        simp [a, b, c2]

/-- The swapping branch of `reb_remove` past its guards: status 1, `N` lowered by 1, slot
`index` takes the former last live particle and no other live slot changes. -/
theorem remove_swap_case (s : reb_simulation) (index keepSorted : Int)
    (hok : store_ok s) (hN : 2 ≤ s.N) (hvar : s.N_var = 0)
    (h0 : 0 ≤ index) (h1 : index < s.N) (hk : keepSorted = 0) :
    ∃ s', reb_remove s index keepSorted = some (1, s') ∧ s'.N = s.N - 1 ∧
      load s'.particles index = load s.particles (s.N - 1) ∧
      (∃ p, load s.particles (s.N - 1) = some p) ∧
      (∀ i : Int, 0 ≤ i → i < s'.N → i ≠ index →
        load s'.particles i = load s.particles i) ∧
      (live s').Perm ((live s).eraseIdx index.toNat) := by
  obtain ⟨_, hcap, hlen⟩ := hok
  obtain ⟨j, rfl⟩ := Int.eq_ofNat_of_zero_le h0
  obtain ⟨m, hm⟩ : ∃ m : Nat, s.N = (m : Int) + 1 := ⟨(s.N - 1).toNat, by omega⟩
  have hmlen : m < s.particles.length := by omega
  have hjlen : j < s.particles.length := by omega
  have e : s.N - 1 = (m : Int) := by omega
  obtain ⟨p, hp⟩ : ∃ p, s.particles[m]? = some p := ⟨s.particles[m], by simp [hmlen]⟩
  have hload : load s.particles (s.N - 1) = some p := by rw [e, load_natCast, hp]
  have hstore := store_natCast s.particles j p hjlen
  refine ⟨{ s with N := s.N - 1, particles := s.particles.set j p }, ?_, rfl, ?_, ⟨p, hload⟩,
    ?_, ?_⟩
  · have c1 : ¬ s.N = 1 := by omega
    have c2 : ¬ (j : Int) ≥ s.N := by omega
    simp only [reb_remove, c1, c2, hvar, hk, if_false, ne_eq, not_true_eq_false, hload, hstore]
  · rw [hload, load_natCast]
    simp [hjlen]
  · intro i hi0 _ hne
    obtain ⟨k, rfl⟩ := Int.eq_ofNat_of_zero_le hi0
    rw [load_natCast, load_natCast, List.getElem?_set]
    have : ¬ j = k := by omega
    simp [this]
  · have e1 : (s.N - 1).toNat = m := by omega
    have e2 : s.N.toNat = m + 1 := by omega
    simp only [live, e1, e2, Int.toNat_ofNat]
    rw [List.set_take, List.take_succ, hp]
    exact set_last_perm_eraseIdx _ p j (by simp; omega)

/-- The `N == 1` branch of `reb_remove`: on a store with exactly one live particle the
function returns 1 for every index and every `keepSorted` flag, and writes nothing to
the state; the particle is still live afterwards. -/
theorem reb_remove_sole_particle_status (s : reb_simulation) (index keepSorted : Int) (hN : s.N = 1) :
    reb_remove s index keepSorted = some (1, s) := by
  simp [reb_remove, hN]

/-- The range check of `reb_remove`, where it works: on a store with `N ≠ 1` an index
`index ≥ N` gives the status 0 and leaves the whole state unchanged, for every
`keepSorted` flag. -/
theorem reb_remove_index_beyond_N (s : reb_simulation) (index keepSorted : Int)
    (hN : s.N ≠ 1) (hi : s.N ≤ index) :
    reb_remove s index keepSorted = some (0, s) := by
  simp [reb_remove, hN, hi]

/-- Claim C6: on a store with at least two live particles and `N_var > 0`, `reb_remove`
returns 0 for every index in `[0, N)` (indeed for every index below `N`) and every
`keepSorted` flag, and leaves the state, in particular `N` and the stored particles,
unchanged. -/
theorem reb_remove_refused_under_megno (s : reb_simulation) (index keepSorted : Int)
    (hN : 2 ≤ s.N) (hvar : 0 < s.N_var) (h1 : index < s.N) :
    ∃ s', reb_remove s index keepSorted = some (0, s') ∧ s'.N = s.N ∧
      s'.particles = s.particles ∧ s' = s := by
  refine ⟨s, ?_, rfl, rfl, rfl⟩
  have c1 : ¬ s.N = 1 := by omega
  have c2 : ¬ index ≥ s.N := by omega
  have c3 : s.N_var ≠ 0 := by omega
  simp [reb_remove, c1, c2, c3]

/-- A removal that passes the guards of `reb_remove`: whatever the flag, it returns 1,
lowers `N` by 1 and leaves a rearrangement of the live particles without entry `index`. -/
theorem remove_perm_case (s : reb_simulation) (index keepSorted : Int)
    (hok : store_ok s) (hN : 2 ≤ s.N) (hvar : s.N_var = 0)
    (h0 : 0 ≤ index) (h1 : index < s.N) :
    ∃ s', reb_remove s index keepSorted = some (1, s') ∧ s'.N = s.N - 1 ∧
      (live s').Perm ((live s).eraseIdx index.toNat) := by
  by_cases hk : keepSorted = 0
  · obtain ⟨s', h, hn, _, _, _, hp⟩ := remove_swap_case s index keepSorted hok hN hvar h0 h1 hk
    exact ⟨s', h, hn, hp⟩
  · obtain ⟨s', h, hn, hp⟩ := remove_shift_case s index keepSorted hok hN hvar h0 h1 hk
    exact ⟨s', h, hn, hp ▸ List.Perm.refl _⟩

/-- The scan of `reb_remove_by_id` steps over `d` live slots that do not carry `id`. -/
theorem reb_remove_by_id_scan_skip (s : reb_simulation) (id keepSorted : Int) (d : Nat) :
    ∀ i : Nat, ((i + d : Nat) : Int) ≤ s.N → i + d ≤ s.particles.length →
      (∀ k : Nat, i ≤ k → k < i + d → ∀ p, s.particles[k]? = some p → p.id ≠ id) →
      reb_remove_by_id_scan s id keepSorted (i : Int) =
        reb_remove_by_id_scan s id keepSorted ((i + d : Nat) : Int) := by
  induction d with
  | zero => intro i _ _ _; rfl
  | succ d ih =>
    intro i hN hlen hno
    have hi : i < s.particles.length := by omega
    obtain ⟨p, hp⟩ : ∃ p, s.particles[i]? = some p := ⟨s.particles[i], by simp [hi]⟩
    have hne : ¬ p.id = id := hno i (le_refl _) (by omega) p hp
    have hc : (i : Int) < s.N := by omega
    rw [reb_remove_by_id_scan]
    simp only [hc, if_true, load_natCast, hp, hne, if_false]
    have e : (i : Int) + 1 = ((i + 1 : Nat) : Int) := by push_cast; rfl
    have e2 : i + (d + 1) = i + 1 + d := by omega
    rw [e, e2]
    exact ih (i + 1) (by rw [← e2]; exact hN) (by omega)
      (fun k hk1 hk2 => hno k (by omega) (by omega))

/-- Claim C8: on a store in which no live particle (index in `[0, N)`) carries `id`,
`reb_remove_by_id` returns 0 and leaves the state, in particular `N` and the stored
particles, unchanged, for either `keepSorted` flag. -/
theorem reb_remove_by_id_missing_id (s : reb_simulation) (id keepSorted : Int)
    (hok : store_ok s) (habs : ∀ p ∈ live s, p.id ≠ id) :
    ∃ s', reb_remove_by_id s id keepSorted = some (0, s') ∧ s'.N = s.N ∧
      s'.particles = s.particles ∧ s' = s := by
  obtain ⟨hN0, hcap, hlen⟩ := hok
  obtain ⟨n, hn⟩ := Int.eq_ofNat_of_zero_le hN0
  refine ⟨s, ?_, rfl, rfl, rfl⟩
  have hskip := reb_remove_by_id_scan_skip s id keepSorted n 0 (by omega) (by omega)
    (fun k _ hk p hp => habs p (by
      rw [live, List.mem_iff_getElem?]
      refine ⟨k, ?_⟩
      rw [List.getElem?_take, hn, Int.toNat_ofNat]
      simp only [Nat.zero_add] at hk
      simp [hk, hp]))
  simp only [Nat.zero_add] at hskip
  have h0 : ((0 : Nat) : Int) = 0 := rfl
  rw [reb_remove_by_id, ← h0, hskip, reb_remove_by_id_scan]
  simp [hn]

/-- Claim C9: on a store with `N_var = 0` in which `id` is carried at two different live
indices, `reb_remove_by_id` does what `reb_remove` does at the lowest index `k` carrying
`id`: it returns 1, `N` drops by exactly 1, the live particles afterwards are the old
ones without entry `k` (up to order when `keepSorted` is false), and every particle
stored at another live index, so every other carrier of `id`, is still live. -/
theorem reb_remove_by_id_removes_lowest (s : reb_simulation) (id keepSorted : Int)
    (hok : store_ok s) (hvar : s.N_var = 0) (i1 i2 : Int) (p1 p2 : reb_particle)
    (h1 : 0 ≤ i1 ∧ i1 < s.N) (h2 : 0 ≤ i2 ∧ i2 < s.N) (hne : i1 ≠ i2)
    (hp1 : load s.particles i1 = some p1) (_hp2 : load s.particles i2 = some p2)
    (hid1 : p1.id = id) (_hid2 : p2.id = id) :
    ∃ (k : Int) (s' : reb_simulation),
      (0 ≤ k ∧ k < s.N) ∧
      (∃ p, load s.particles k = some p ∧ p.id = id) ∧
      (∀ i : Int, 0 ≤ i → i < k → ∀ p, load s.particles i = some p → p.id ≠ id) ∧
      reb_remove_by_id s id keepSorted = reb_remove s k keepSorted ∧
      reb_remove_by_id s id keepSorted = some (1, s') ∧
      s'.N = s.N - 1 ∧
      (live s').Perm ((live s).eraseIdx k.toNat) ∧
      (∀ i : Int, 0 ≤ i → i < s.N → i ≠ k →
        ∀ p, load s.particles i = some p → p ∈ live s') := by
  classical
  obtain ⟨a, rfl⟩ := Int.eq_ofNat_of_zero_le h1.1
  have hex : ∃ k : Nat, ∃ p, s.particles[k]? = some p ∧ p.id = id :=
    ⟨a, p1, by rw [← load_natCast]; exact hp1, hid1⟩
  have hkspec := Nat.find_spec hex
  have hkmin : ∀ m, m < Nat.find hex → ¬ ∃ p, s.particles[m]? = some p ∧ p.id = id :=
    fun m hm => Nat.find_min hex hm
  have hka : Nat.find hex ≤ a := Nat.find_min' hex ⟨p1, by rw [← load_natCast]; exact hp1, hid1⟩
  generalize Nat.find hex = k at hkspec hkmin hka
  obtain ⟨p, hp, hpid⟩ := hkspec
  have hN2 : 2 ≤ s.N := by omega
  have hkN : (k : Int) < s.N := by omega
  obtain ⟨s', hrem, hn, hperm⟩ :=
    remove_perm_case s (k : Int) keepSorted hok hN2 hvar (by omega) hkN
  obtain ⟨hN0, hcap, hlen⟩ := hok
  have hscan : reb_remove_by_id s id keepSorted = reb_remove s (k : Int) keepSorted := by
    have hskip := reb_remove_by_id_scan_skip s id keepSorted k 0 (by omega) (by omega)
      (fun m _ hm q hq hqid => hkmin m (by omega) ⟨q, hq, hqid⟩)
    simp only [Nat.zero_add] at hskip
    have h0 : ((0 : Nat) : Int) = 0 := rfl
    rw [reb_remove_by_id, ← h0, hskip, reb_remove_by_id_scan]
    simp [hkN, load_natCast, hp, hpid]
  refine ⟨(k : Int), s', ⟨by omega, hkN⟩, ⟨p, by rw [load_natCast]; exact hp, hpid⟩, ?_, hscan,
    hscan.trans hrem, hn, hperm, ?_⟩
  · intro i hi0 hik q hq hqid
    obtain ⟨m, rfl⟩ := Int.eq_ofNat_of_zero_le hi0
    rw [load_natCast] at hq
    exact hkmin m (by omega) ⟨q, hq, hqid⟩
  · intro i hi0 hiN hik q hq
    obtain ⟨m, rfl⟩ := Int.eq_ofNat_of_zero_le hi0
    rw [load_natCast] at hq
    rw [hperm.mem_iff, List.mem_iff_getElem?]
    by_cases hmk : m < k
    · refine ⟨m, ?_⟩
      rw [List.getElem?_eraseIdx, Int.toNat_ofNat, live, List.getElem?_take]
      have : m < s.N.toNat := by omega
      simp [hmk, this, hq]
    · obtain ⟨m', rfl⟩ : ∃ m', m = m' + 1 := ⟨m - 1, by omega⟩
      refine ⟨m', ?_⟩
      rw [List.getElem?_eraseIdx, Int.toNat_ofNat, live, List.getElem?_take]
      have a1 : ¬ m' < k := by omega
      have a2 : m' + 1 < s.N.toNat := by omega
      simp [a1, a2, hq]

/-! ## Growing the block and appending -/

theorem realloc_length (E : Env) (ps : List reb_particle) (n : Int) :
    (realloc E ps n).length = n.toNat := by
  simp [realloc]; omega

theorem realloc_getElem? (E : Env) (ps : List reb_particle) (n : Int) (i : Nat)
    (hi : i < ps.length) (hn : ps.length ≤ n.toNat) :
    (realloc E ps n)[i]? = ps[i]? := by
  have h : ps.take n.toNat = ps := List.take_of_length_le hn
  rw [realloc, h, List.getElem?_append_left hi]

/-- The growth loop of `reb_add_local` on a block of `allocatedN ≥ 0` slots: it changes
only `allocatedN` and the block, ends with more than `N` slots, keeps the old
contents, and does nothing when there is already a spare slot. -/
theorem reb_add_local_grow_spec (E : Env) (n : Nat) :
    ∀ s : reb_simulation, (s.N + 1 - s.allocatedN).toNat = n → 0 ≤ s.allocatedN →
      (s.particles.length : Int) = s.allocatedN →
      ∃ (a : Int) (ps : List reb_particle),
        reb_add_local_grow E s = { s with allocatedN := a, particles := ps } ∧
        s.N < a ∧ s.allocatedN ≤ a ∧ (ps.length : Int) = a ∧
        (∀ i : Nat, i < s.particles.length → ps[i]? = s.particles[i]?) ∧
        (s.N < s.allocatedN → a = s.allocatedN ∧ ps = s.particles) := by
  induction n using Nat.strong_induction_on with
  | _ n ih =>
    intro s hn h0 hlen
    by_cases hc : s.allocatedN ≤ s.N
    · obtain ⟨a, ps, hrun, h1, h2, h3, h4, _⟩ :=
        ih (s.N + 1 - (s.allocatedN + 128)).toNat (by omega)
          { s with allocatedN := s.allocatedN + 128,
                   particles := realloc E s.particles (s.allocatedN + 128) }
          rfl (by simp only; omega) (by simp only [realloc_length]; omega)
      refine ⟨a, ps, ?_, h1, by simp only at h2; omega, h3, ?_, by intro h; omega⟩
      · rw [reb_add_local_grow]
        simp only [hc, if_true]
        exact hrun
      · intro i hi
        rw [h4 i (by simp only [realloc_length]; omega)]
        exact realloc_getElem? E s.particles _ i hi (by omega)
    · refine ⟨s.allocatedN, s.particles, ?_, by omega, le_refl _, hlen, fun _ _ => rfl,
        fun _ => ⟨rfl, rfl⟩⟩
      rw [reb_add_local_grow]
      simp only [hc, if_false]

/-- The tracking prelude of `reb_add` touches only `max_radius` and
`gravity_minimum_mass`. -/
theorem reb_add_tracked_frame (E : Env) (s : reb_simulation) (pt : reb_particle) :
    ∃ a b c, reb_add_tracked E s pt =
      { s with max_radius_0 := a, max_radius_1 := b, gravity_minimum_mass := c } := by
  unfold reb_add_tracked
  dsimp only
  split_ifs <;> exact ⟨_, _, _, rfl⟩

/-- A local add of an accepted particle to a valid store: it appends. -/
theorem reb_add_local_spec (E : Env) (t : reb_simulation) (pt : reb_particle)
    (hok : store_ok t) (hin : E.reb_boundary_particle_is_in_box t pt ≠ 0) :
    ∃ s', reb_add_local E t pt = some s' ∧ s'.N = t.N + 1 ∧
      load s'.particles t.N = some { pt with ap := none, sim := some t.self } ∧
      (∀ i : Int, 0 ≤ i → i < t.N → load s'.particles i = load t.particles i) ∧
      store_ok s' ∧ t.allocatedN ≤ s'.allocatedN ∧
      (t.N < t.allocatedN → s'.allocatedN = t.allocatedN) ∧
      s'.N_active = t.N_active ∧ s'.N_var = t.N_var := by
  obtain ⟨hN0, hcap, hlen⟩ := hok
  obtain ⟨a, ps, hrun, h1, h2, h3, h4, h5⟩ :=
    reb_add_local_grow_spec E _ t rfl (by omega) hlen
  obtain ⟨n, hn⟩ := Int.eq_ofNat_of_zero_le hN0
  have hnlen : n < ps.length := by omega
  have hstore : store ps t.N { pt with ap := none, sim := some t.self } =
      some (ps.set n { pt with ap := none, sim := some t.self }) := by
    rw [hn]; exact store_natCast _ _ _ hnlen
  by_cases htree : t.gravity = E.REB_GRAVITY_TREE ∨ t.collision = E.REB_COLLISION_TREE
  · refine ⟨{ t with allocatedN := a,
                     particles := ps.set n { pt with ap := none, sim := some t.self },
                     tree_added := t.tree_added ++ [t.N], N := t.N + 1 }, ?_, rfl, ?_, ?_, ?_,
      h2, fun h => (h5 h).1, rfl, rfl⟩
    · simp only [reb_add_local, hin, if_false, hrun, hstore, htree, if_true]
    · simp only [hn, load_natCast]; simp [hnlen]
    · intro i hi0 hiN
      obtain ⟨k, rfl⟩ := Int.eq_ofNat_of_zero_le hi0
      simp only [load_natCast]
      rw [List.getElem?_set, ← h4 k (by omega)]
      have : ¬ n = k := by omega
      simp [this]
    · refine ⟨by simp only; omega, by simp only; omega, by simp only [List.length_set]; omega⟩
  · refine ⟨{ t with allocatedN := a,
                     particles := ps.set n { pt with ap := none, sim := some t.self },
                     N := t.N + 1 }, ?_, rfl, ?_, ?_, ?_,
      h2, fun h => (h5 h).1, rfl, rfl⟩
    · simp only [reb_add_local, hin, if_false, hrun, hstore, htree]
    · simp only [hn, load_natCast]; simp [hnlen]
    · intro i hi0 hiN
      obtain ⟨k, rfl⟩ := Int.eq_ofNat_of_zero_le hi0
      simp only [load_natCast]
      rw [List.getElem?_set, ← h4 k (by omega)]
      have : ¬ n = k := by omega
      simp [this]
    · refine ⟨by simp only; omega, by simp only; omega, by simp only [List.length_set]; omega⟩

/-- The growth loop on a store without particles and without capacity allocates one
increment of 128 slots. -/
theorem reb_add_local_grow_empty (E : Env) (t : reb_simulation)
    (hN : t.N = 0) (ha : t.allocatedN = 0) :
    reb_add_local_grow E t =
      { t with allocatedN := 128, particles := realloc E t.particles 128 } := by
  rw [reb_add_local_grow]
  simp only [hN, ha, le_refl, if_true]
  rw [reb_add_local_grow]
  simp

/-- Outside the MPI build, and in the MPI build when the owner of the particle's cell is
the local process, `reb_add` is the local add after the tracking prelude. -/
theorem reb_add_eq_local (E : Env) (s : reb_simulation) (pt : reb_particle)
    (hlocal : E.MPI = false ∨
      reb_add_proc_id E (reb_add_tracked E s pt) pt = some E.mpi_id) :
    reb_add E s pt = reb_add_local E (reb_add_tracked E s pt) pt := by
  rcases hlocal with h | h
  · simp [reb_add, h]
  · by_cases hm : E.MPI = true
    · simp [reb_add, hm, h]
    · simp [reb_add, hm]

/-- The fields of the store that the tracking prelude of `reb_add` leaves alone. -/
theorem reb_add_tracked_fields (E : Env) (s : reb_simulation) (pt : reb_particle) :
    (reb_add_tracked E s pt).N = s.N ∧ (reb_add_tracked E s pt).allocatedN = s.allocatedN ∧
      (reb_add_tracked E s pt).particles = s.particles ∧
      (reb_add_tracked E s pt).N_active = s.N_active ∧
      (reb_add_tracked E s pt).N_var = s.N_var ∧ (reb_add_tracked E s pt).self = s.self := by
  obtain ⟨a, b, c, ht⟩ := reb_add_tracked_frame E s pt
  rw [ht]
  exact ⟨rfl, rfl, rfl, rfl, rfl, rfl⟩

/-- A local add of an accepted particle on a store without particles and without
capacity: one live particle in a block of 128 slots, the counters untouched. -/
theorem reb_add_local_empty (E : Env) (t : reb_simulation) (pt : reb_particle)
    (hN : t.N = 0) (ha : t.allocatedN = 0) (hp : t.particles = [])
    (hin : E.reb_boundary_particle_is_in_box t pt ≠ 0) :
    ∃ t', reb_add_local E t pt = some t' ∧ t'.N = 1 ∧ t'.allocatedN = 128 ∧
      t'.N_active = t.N_active ∧ t'.N_var = t.N_var ∧
      t'.particles = (realloc E [] 128).set 0 { pt with ap := none, sim := some t.self } := by
  have hg := reb_add_local_grow_empty E t hN ha
  have hst : store (realloc E t.particles 128) t.N { pt with ap := none, sim := some t.self } =
      some ((realloc E [] 128).set 0 { pt with ap := none, sim := some t.self }) := by
    rw [hp, hN]
    have := store_natCast (realloc E [] 128) 0 { pt with ap := none, sim := some t.self }
      (by rw [realloc_length]; decide)
    simpa using this
  by_cases htree : t.gravity = E.REB_GRAVITY_TREE ∨ t.collision = E.REB_COLLISION_TREE
  · refine ⟨{ t with allocatedN := 128,
                     particles := (realloc E [] 128).set 0
                       { pt with ap := none, sim := some t.self },
                     tree_added := t.tree_added ++ [t.N], N := t.N + 1 }, ?_, by simp [hN],
      rfl, rfl, rfl, rfl⟩
    simp only [reb_add_local, hin, if_false, hg, hst, htree, if_true]
  · refine ⟨{ t with allocatedN := 128,
                     particles := (realloc E [] 128).set 0
                       { pt with ap := none, sim := some t.self },
                     N := t.N + 1 }, ?_, by simp [hN], rfl, rfl, rfl, rfl⟩
    simp only [reb_add_local, hin, if_false, hg, hst, htree]

/-- An add that stays local, on a store without particles and without capacity. -/
theorem reb_add_empty_spec (E : Env) (t : reb_simulation) (pt : reb_particle)
    (hN : t.N = 0) (ha : t.allocatedN = 0) (hp : t.particles = [])
    (hlocal : E.MPI = false ∨
      reb_add_proc_id E (reb_add_tracked E t pt) pt = some E.mpi_id)
    (hin : E.reb_boundary_particle_is_in_box (reb_add_tracked E t pt) pt ≠ 0) :
    ∃ t', reb_add E t pt = some t' ∧ t'.N = 1 ∧ t'.allocatedN = 128 ∧
      t'.N_active = t.N_active ∧ t'.N_var = t.N_var ∧
      t'.particles = (realloc E [] 128).set 0 { pt with ap := none, sim := some t.self } := by
  obtain ⟨fN, fa, fp, fact, fvar, fself⟩ := reb_add_tracked_fields E t pt
  obtain ⟨t', h, h1, h2, h3, h4, h5⟩ := reb_add_local_empty E (reb_add_tracked E t pt) pt
    (fN.trans hN) (fa.trans ha) (fp.trans hp) hin
  rw [reb_add_eq_local E t pt hlocal]
  exact ⟨t', h, h1, h2, h3.trans fact, h4.trans fvar, by rw [h5, fself]⟩

/-! ## The claims -/

/-- Claim C1: in the single-process build, on every valid store and for every particle the
boundary predicate accepts, `reb_add` raises `N` by exactly 1; the entry at the new
index `N-1` has the position, velocity, mass, radius and id of the argument, a cleared
`ap` and the simulation as `sim`; and every entry below the old `N` is unchanged. There
is no condition on `N_var`: the add proceeds also when `N_var > 0`. -/
theorem reb_add_appends_particle (E : Env) (s : reb_simulation) (pt : reb_particle)
    (hmpi : E.MPI = false) (hok : store_ok s)
    (hin : E.reb_boundary_particle_is_in_box (reb_add_tracked E s pt) pt ≠ 0) :
    ∃ s', reb_add E s pt = some s' ∧ s'.N = s.N + 1 ∧
      (∃ q, load s'.particles (s'.N - 1) = some q ∧
        q.x = pt.x ∧ q.y = pt.y ∧ q.z = pt.z ∧ q.vx = pt.vx ∧ q.vy = pt.vy ∧ q.vz = pt.vz ∧
        q.m = pt.m ∧ q.r = pt.r ∧ q.id = pt.id ∧ q.ap = none ∧ q.sim = some s.self) ∧
      (∀ i : Int, 0 ≤ i → i < s.N → load s'.particles i = load s.particles i) := by
  obtain ⟨a, b, c, ht⟩ := reb_add_tracked_frame E s pt
  rw [reb_add_eq_local E s pt (Or.inl hmpi)]
  rw [ht] at hin ⊢
  obtain ⟨s', hrun, hN, hnew, hold, _⟩ := reb_add_local_spec E
    { s with max_radius_0 := a, max_radius_1 := b, gravity_minimum_mass := c } pt hok hin
  refine ⟨s', hrun, hN, ⟨{ pt with ap := none, sim := some s.self }, ?_,
    rfl, rfl, rfl, rfl, rfl, rfl, rfl, rfl, rfl, rfl, rfl⟩, hold⟩
  have e : s'.N - 1 = s.N := by rw [hN]; simp
  rw [e]
  exact hnew

/-- Claim C2: on a store with `N ≥ 2` and `N_var = 0`, `reb_remove` with a true `keepSorted`
flag and an index in `[0, N)` returns 1, lowers `N` by exactly 1, and the live sequence
afterwards is the old live sequence with the entry at `index` erased, so all
survivors keep their relative order. -/
theorem reb_remove_keepSorted_erases (s : reb_simulation) (index keepSorted : Int)
    (hok : store_ok s) (hN : 2 ≤ s.N) (hvar : s.N_var = 0)
    (h0 : 0 ≤ index) (h1 : index < s.N) (hk : keepSorted ≠ 0) :
    ∃ s', reb_remove s index keepSorted = some (1, s') ∧ s'.N = s.N - 1 ∧
      live s' = (live s).eraseIdx index.toNat :=
  remove_shift_case s index keepSorted hok hN hvar h0 h1 hk

/-- Claim C3: on a store with `N ≥ 2` and `N_var = 0`, `reb_remove` with a false
`keepSorted` flag and an index in `[0, N)` returns 1 and lowers `N` by exactly 1; slot
`index` then holds the former last live particle, every other live slot is unchanged,
and the live particles are, as a multiset, the old live particles without the one at
`index`. -/
theorem reb_remove_unsorted_swaps (s : reb_simulation) (index keepSorted : Int)
    (hok : store_ok s) (hN : 2 ≤ s.N) (hvar : s.N_var = 0)
    (h0 : 0 ≤ index) (h1 : index < s.N) (hk : keepSorted = 0) :
    ∃ s', reb_remove s index keepSorted = some (1, s') ∧ s'.N = s.N - 1 ∧
      load s'.particles index = load s.particles (s.N - 1) ∧
      (∃ p, load s.particles (s.N - 1) = some p) ∧
      (∀ i : Int, 0 ≤ i → i < s'.N → i ≠ index →
        load s'.particles i = load s.particles i) ∧
      (live s').Perm ((live s).eraseIdx index.toNat) :=
  remove_swap_case s index keepSorted hok hN hvar h0 h1 hk

/-- Claim C7: on every store and for every particle the boundary predicate rejects,
`reb_add` leaves `N`, the capacity, `N_active`, `N_var` and the stored particles
unchanged, in every build (in the MPI build the owner computation has to be defined). -/
theorem reb_add_rejected_leaves_store (E : Env) (s : reb_simulation) (pt : reb_particle)
    (hrej : E.reb_boundary_particle_is_in_box (reb_add_tracked E s pt) pt = 0)
    (hdef : E.MPI = true → reb_add_proc_id E (reb_add_tracked E s pt) pt ≠ none) :
    ∃ s', reb_add E s pt = some s' ∧ s'.N = s.N ∧ s'.allocatedN = s.allocatedN ∧
      s'.N_active = s.N_active ∧ s'.N_var = s.N_var ∧ s'.particles = s.particles := by
  obtain ⟨a, b, c, ht⟩ := reb_add_tracked_frame E s pt
  have hloc : reb_add_local E (reb_add_tracked E s pt) pt = some (reb_add_tracked E s pt) := by
    simp [reb_add_local, hrej]
  by_cases hm : E.MPI = true
  · obtain ⟨proc_id, hproc⟩ := Option.ne_none_iff_exists'.mp (hdef hm)
    by_cases hgate : proc_id ≠ E.mpi_id ∧
        (reb_add_tracked E s pt).N ≥ (reb_add_tracked E s pt).N_active
    · refine ⟨{ reb_add_tracked E s pt with
          send_queue := (reb_add_tracked E s pt).send_queue ++ [(pt, proc_id)] }, ?_, ?_⟩
      · simp only [reb_add, hm, if_true, hproc]
        rw [if_pos hgate]
      · simp [ht]
    · refine ⟨reb_add_tracked E s pt, ?_, ?_⟩
      · simp only [reb_add, hm, if_true, hproc]
        rw [if_neg hgate, hloc]
      · simp [ht]
  · refine ⟨reb_add_tracked E s pt, ?_, ?_⟩
    · simp only [reb_add, hm, hloc]
      simp
    · simp [ht]

/-- Claim C10, as the code has it: after `reb_remove_all`, `N = 0`, the capacity is 0,
`N_active = -1` and `N_var = 0`; and when the following `reb_add` of an in-box particle
stays local (the single-process build, or the MPI build with the local process as
owner), it gives what the same add gives on a freshly initialised empty store `f`:
`N = 1`, capacity 128, the same counters, and the new particle as the only live
entry, whatever was stored before the clear. -/
theorem reb_add_after_remove_all_local (E : Env) (s f : reb_simulation) (pt : reb_particle)
    (hlocal : E.MPI = false ∨
      reb_add_proc_id E (reb_add_tracked E (reb_remove_all s) pt) pt = some E.mpi_id)
    (hin : E.reb_boundary_particle_is_in_box (reb_add_tracked E (reb_remove_all s) pt) pt ≠ 0)
    (hfresh : fresh_store f)
    (hflocal : E.MPI = false ∨ reb_add_proc_id E (reb_add_tracked E f pt) pt = some E.mpi_id)
    (hfin : E.reb_boundary_particle_is_in_box (reb_add_tracked E f pt) pt ≠ 0) :
    ((reb_remove_all s).N = 0 ∧ (reb_remove_all s).allocatedN = 0 ∧
      (reb_remove_all s).N_active = -1 ∧ (reb_remove_all s).N_var = 0) ∧
    ∃ s' f', reb_add E (reb_remove_all s) pt = some s' ∧ reb_add E f pt = some f' ∧
      s'.N = 1 ∧ s'.allocatedN = 128 ∧
      load s'.particles 0 = some { pt with ap := none, sim := some s.self } ∧
      live s' = [{ pt with ap := none, sim := some s.self }] ∧
      f'.N = s'.N ∧ f'.allocatedN = s'.allocatedN ∧
      f'.N_active = s'.N_active ∧ f'.N_var = s'.N_var ∧
      live f' = [{ pt with ap := none, sim := some f.self }] ∧
      (f.self = s.self → f'.particles = s'.particles) := by
  refine ⟨⟨rfl, rfl, rfl, rfl⟩, ?_⟩
  obtain ⟨hfN, hfa, hfact, hfvar, hfp⟩ := hfresh
  obtain ⟨s', hs, hsN, hsa, hsact, hsvar, hsp⟩ :=
    reb_add_empty_spec E (reb_remove_all s) pt rfl rfl rfl hlocal hin
  obtain ⟨f', hf, hfN', hfa', hfact', hfvar', hfp'⟩ :=
    reb_add_empty_spec E f pt hfN hfa hfp hflocal hfin
  have hlen : 0 < (realloc E [] 128).length := by rw [realloc_length]; decide
  obtain ⟨q, rest, hq⟩ : ∃ q rest, realloc E [] 128 = q :: rest := by
    cases h : realloc E [] 128 with
    | nil => rw [h] at hlen; exact absurd hlen (by decide)
    | cons q rest => exact ⟨q, rest, rfl⟩
  refine ⟨s', f', hs, hf, hsN, hsa, ?_, ?_, by rw [hfN', hsN], by rw [hfa', hsa],
    by rw [hfact', hsact, hfact]; rfl, by rw [hfvar', hsvar, hfvar]; rfl, ?_, ?_⟩
  · rw [hsp, hq]; simp [load, reb_remove_all]
  · rw [live, hsp, hsN, hq]; rfl
  · rw [live, hfp', hfN', hq]; rfl
  · intro hself
    rw [hfp', hsp, hself]; rfl

/-! ## Instances and counterexamples -/

/-- Instance of claim C1: adding a particle at the origin to a three-particle store on
which `N_var = 2`. -/
theorem reb_add_appends_particle_witness :
    (sample_env.MPI = false ∧ store_ok sample_megno ∧
      sample_env.reb_boundary_particle_is_in_box
        (reb_add_tracked sample_env sample_megno (sample_particle 3 30))
        (sample_particle 3 30) ≠ 0) ∧
    ∃ s', reb_add sample_env sample_megno (sample_particle 3 30) = some s' ∧
      s'.N = sample_megno.N + 1 ∧
      (∃ q, load s'.particles (s'.N - 1) = some q ∧
        q.x = (sample_particle 3 30).x ∧ q.y = (sample_particle 3 30).y ∧
        q.z = (sample_particle 3 30).z ∧ q.vx = (sample_particle 3 30).vx ∧
        q.vy = (sample_particle 3 30).vy ∧ q.vz = (sample_particle 3 30).vz ∧
        q.m = (sample_particle 3 30).m ∧ q.r = (sample_particle 3 30).r ∧
        q.id = (sample_particle 3 30).id ∧ q.ap = none ∧
        q.sim = some sample_megno.self) ∧
      (∀ i : Int, 0 ≤ i → i < sample_megno.N →
        load s'.particles i = load sample_megno.particles i) :=
  ⟨⟨rfl, by decide, by decide⟩,
    reb_add_appends_particle sample_env sample_megno (sample_particle 3 30) rfl (by decide)
      (by decide)⟩

/-- Instance of claim C2: removing the first of three particles, keeping the order. -/
theorem reb_remove_keepSorted_erases_witness :
    (store_ok (sample_sim sample_three) ∧ 2 ≤ (sample_sim sample_three).N ∧
      (sample_sim sample_three).N_var = 0 ∧ (0 : Int) ≤ 0 ∧ 0 < (sample_sim sample_three).N ∧
      (1 : Int) ≠ 0) ∧
    ∃ s', reb_remove (sample_sim sample_three) 0 1 = some (1, s') ∧
      s'.N = (sample_sim sample_three).N - 1 ∧
      live s' = (live (sample_sim sample_three)).eraseIdx (0 : Int).toNat :=
  ⟨⟨by decide, by decide, rfl, by decide, by decide, by decide⟩,
    reb_remove_keepSorted_erases (sample_sim sample_three) 0 1 (by decide) (by decide) rfl
      (by decide) (by decide) (by decide)⟩

/-- Instance of claim C3: removing the first of three particles by the swap. -/
theorem reb_remove_unsorted_swaps_witness :
    (store_ok (sample_sim sample_three) ∧ 2 ≤ (sample_sim sample_three).N ∧
      (sample_sim sample_three).N_var = 0 ∧ (0 : Int) ≤ 0 ∧ 0 < (sample_sim sample_three).N ∧
      (0 : Int) = 0) ∧
    ∃ s', reb_remove (sample_sim sample_three) 0 0 = some (1, s') ∧
      s'.N = (sample_sim sample_three).N - 1 ∧
      load s'.particles 0 =
        load (sample_sim sample_three).particles ((sample_sim sample_three).N - 1) ∧
      (∃ p, load (sample_sim sample_three).particles ((sample_sim sample_three).N - 1) = some p) ∧
      (∀ i : Int, 0 ≤ i → i < s'.N → i ≠ 0 →
        load s'.particles i = load (sample_sim sample_three).particles i) ∧
      (live s').Perm ((live (sample_sim sample_three)).eraseIdx (0 : Int).toNat) :=
  ⟨⟨by decide, by decide, rfl, by decide, by decide, rfl⟩,
    reb_remove_unsorted_swaps (sample_sim sample_three) 0 0 (by decide) (by decide) rfl
      (by decide) (by decide) rfl⟩

/-- Claim C4, at the failing input: on a store with one live particle `reb_remove(r, 0, 0)`
returns 1, the status of a removal, and not the status 0 of a refusal, although it
removes nothing: the state, with `N = 1`, is the one before the call. -/
theorem reb_remove_sole_particle_not_failure :
    (sample_sim [sample_particle 1 10]).N = 1 ∧
    reb_remove (sample_sim [sample_particle 1 10]) 0 0 =
      some (1, sample_sim [sample_particle 1 10]) ∧
    reb_remove (sample_sim [sample_particle 1 10]) 0 0 ≠
      some (0, sample_sim [sample_particle 1 10]) := by
  decide

/-- Instance of the `N == 1` branch, on a store with one live particle. -/
theorem reb_remove_sole_particle_status_witness :
    (sample_sim [sample_particle 1 10]).N = 1 ∧
    reb_remove (sample_sim [sample_particle 1 10]) 0 1 =
      some (1, sample_sim [sample_particle 1 10]) :=
  ⟨rfl, reb_remove_sole_particle_status (sample_sim [sample_particle 1 10]) 0 1 rfl⟩

/-- Claim C5, at the failing inputs: with one live particle the index 5, which is outside
`[0, 1)`, gives the status 1, because the `N == 1` branch comes before the range check;
and on the empty store the index -1 passes the range check `index >= r->N`, so that
with `keepSorted` set `reb_remove` returns 1 and leaves `N = -1`. -/
theorem reb_remove_out_of_range_accepted :
    reb_remove (sample_sim [sample_particle 1 10]) 5 0 =
      some (1, sample_sim [sample_particle 1 10]) ∧
    reb_remove (sample_sim []) (-1) 1 = some (1, { sample_sim [] with N := -1 }) := by
  constructor
  · decide
  · simp [reb_remove, reb_remove_shift, sample_sim]

/-- Instance of the range check: index 3 on a three-particle store. -/
theorem reb_remove_index_beyond_N_witness :
    ((sample_sim sample_three).N ≠ 1 ∧ (sample_sim sample_three).N ≤ 3) ∧
    reb_remove (sample_sim sample_three) 3 0 = some (0, sample_sim sample_three) :=
  ⟨⟨by decide, by decide⟩,
    reb_remove_index_beyond_N (sample_sim sample_three) 3 0 (by decide) (by decide)⟩

/-- Instance of claim C6: three particles with `N_var = 2`. -/
theorem reb_remove_refused_under_megno_witness :
    (2 ≤ sample_megno.N ∧ 0 < sample_megno.N_var ∧ 1 < sample_megno.N) ∧
    ∃ s', reb_remove sample_megno 1 0 = some (0, s') ∧ s'.N = sample_megno.N ∧
      s'.particles = sample_megno.particles ∧ s' = sample_megno :=
  ⟨⟨by decide, by decide, by decide⟩,
    reb_remove_refused_under_megno sample_megno 1 0 (by decide) (by decide) (by decide)⟩

/-- Instance of claim C7: a particle at `x = 5`, outside the box of `sample_env`. -/
theorem reb_add_rejected_leaves_store_witness :
    (sample_env.reb_boundary_particle_is_in_box
        (reb_add_tracked sample_env (sample_sim sample_three)
          { sample_particle 1 40 with x := 5 }) { sample_particle 1 40 with x := 5 } = 0 ∧
      (sample_env.MPI = true →
        reb_add_proc_id sample_env
          (reb_add_tracked sample_env (sample_sim sample_three)
            { sample_particle 1 40 with x := 5 }) { sample_particle 1 40 with x := 5 } ≠ none)) ∧
    ∃ s', reb_add sample_env (sample_sim sample_three) { sample_particle 1 40 with x := 5 } =
        some s' ∧
      s'.N = (sample_sim sample_three).N ∧
      s'.allocatedN = (sample_sim sample_three).allocatedN ∧
      s'.N_active = (sample_sim sample_three).N_active ∧
      s'.N_var = (sample_sim sample_three).N_var ∧
      s'.particles = (sample_sim sample_three).particles :=
  ⟨⟨by decide, by decide⟩,
    reb_add_rejected_leaves_store sample_env (sample_sim sample_three)
      { sample_particle 1 40 with x := 5 } (by decide) (by decide)⟩

/-- Instance of claim C8: the identifier 11 on a store holding 10, 20 and 10. -/
theorem reb_remove_by_id_missing_id_witness :
    (store_ok (sample_sim sample_three) ∧
      ∀ p ∈ live (sample_sim sample_three), p.id ≠ 11) ∧
    ∃ s', reb_remove_by_id (sample_sim sample_three) 11 0 = some (0, s') ∧
      s'.N = (sample_sim sample_three).N ∧
      s'.particles = (sample_sim sample_three).particles ∧ s' = sample_sim sample_three :=
  ⟨⟨by decide, by decide⟩,
    reb_remove_by_id_missing_id (sample_sim sample_three) 11 0 (by decide) (by decide)⟩

/-- Instance of claim C9: the identifier 10, carried at the indices 0 and 2. -/
theorem reb_remove_by_id_removes_lowest_witness :
    (store_ok (sample_sim sample_three) ∧ (sample_sim sample_three).N_var = 0 ∧
      load (sample_sim sample_three).particles 0 = some (sample_particle 1 10) ∧
      load (sample_sim sample_three).particles 2 = some (sample_particle 3 10)) ∧
    ∃ (k : Int) (s' : reb_simulation),
      (0 ≤ k ∧ k < (sample_sim sample_three).N) ∧
      (∃ p, load (sample_sim sample_three).particles k = some p ∧ p.id = 10) ∧
      (∀ i : Int, 0 ≤ i → i < k →
        ∀ p, load (sample_sim sample_three).particles i = some p → p.id ≠ 10) ∧
      reb_remove_by_id (sample_sim sample_three) 10 1 =
        reb_remove (sample_sim sample_three) k 1 ∧
      reb_remove_by_id (sample_sim sample_three) 10 1 = some (1, s') ∧
      s'.N = (sample_sim sample_three).N - 1 ∧
      (live s').Perm ((live (sample_sim sample_three)).eraseIdx k.toNat) ∧
      (∀ i : Int, 0 ≤ i → i < (sample_sim sample_three).N → i ≠ k →
        ∀ p, load (sample_sim sample_three).particles i = some p → p ∈ live s') :=
  ⟨⟨by decide, rfl, by decide, by decide⟩,
    reb_remove_by_id_removes_lowest (sample_sim sample_three) 10 1 (by decide) rfl 0 2
      (sample_particle 1 10) (sample_particle 3 10) (by decide) (by decide) (by decide)
      (by decide) (by decide) rfl rfl⟩

/-- Counterexample to claim C10 as stated: in the MPI build on process 1, the in-box
particle added after `reb_remove_all` belongs to process 0; it is queued, and the
store stays empty with capacity 0. -/
theorem reb_add_after_remove_all_queued :
    sample_mpi_env.reb_boundary_particle_is_in_box
      (reb_add_tracked sample_mpi_env (reb_remove_all (sample_sim sample_three))
        (sample_particle 1 40)) (sample_particle 1 40) ≠ 0 ∧
    (reb_add sample_mpi_env (reb_remove_all (sample_sim sample_three))
      (sample_particle 1 40)).map (fun t => (t.N, t.allocatedN, t.particles, t.send_queue)) =
      some (0, 0, [], [(sample_particle 1 40, 0)]) := by
  decide

/-- Instance of claim C10 as amended, in the single-process build. -/
theorem reb_add_after_remove_all_local_witness :
    ((sample_env.MPI = false ∨
        reb_add_proc_id sample_env
          (reb_add_tracked sample_env (reb_remove_all (sample_sim sample_three))
            (sample_particle 1 40)) (sample_particle 1 40) = some sample_env.mpi_id) ∧
      sample_env.reb_boundary_particle_is_in_box
        (reb_add_tracked sample_env (reb_remove_all (sample_sim sample_three))
          (sample_particle 1 40)) (sample_particle 1 40) ≠ 0 ∧
      fresh_store (sample_sim []) ∧
      sample_env.reb_boundary_particle_is_in_box
        (reb_add_tracked sample_env (sample_sim []) (sample_particle 1 40))
        (sample_particle 1 40) ≠ 0) ∧
    (((reb_remove_all (sample_sim sample_three)).N = 0 ∧
      (reb_remove_all (sample_sim sample_three)).allocatedN = 0 ∧
      (reb_remove_all (sample_sim sample_three)).N_active = -1 ∧
      (reb_remove_all (sample_sim sample_three)).N_var = 0) ∧
    ∃ s' f', reb_add sample_env (reb_remove_all (sample_sim sample_three))
        (sample_particle 1 40) = some s' ∧
      reb_add sample_env (sample_sim []) (sample_particle 1 40) = some f' ∧
      s'.N = 1 ∧ s'.allocatedN = 128 ∧
      load s'.particles 0 =
        some { sample_particle 1 40 with ap := none, sim := some (sample_sim sample_three).self } ∧
      live s' =
        [{ sample_particle 1 40 with ap := none, sim := some (sample_sim sample_three).self }] ∧
      f'.N = s'.N ∧ f'.allocatedN = s'.allocatedN ∧
      f'.N_active = s'.N_active ∧ f'.N_var = s'.N_var ∧
      live f' = [{ sample_particle 1 40 with ap := none, sim := some (sample_sim []).self }] ∧
      ((sample_sim []).self = (sample_sim sample_three).self → f'.particles = s'.particles)) :=
  ⟨⟨Or.inl rfl, by decide, by decide, by decide⟩,
    reb_add_after_remove_all_local sample_env (sample_sim sample_three) (sample_sim [])
      (sample_particle 1 40) (Or.inl rfl) (by decide) (by decide) (Or.inl rfl) (by decide)⟩

/-! ## The root box of a particle -/

/-- Inside the range of `int` a computation has its mathematical value. -/
theorem int_result_of_range (z : Int) (h0 : INT_MIN ≤ z) (h1 : z ≤ INT_MAX) :
    int_result z = some z := by
  simp [int_result, h0, h1]

/-- One axis with a positive root count, when the grid coordinate and its sum with the
root count fit into an `int`. -/
theorem rootbox_axis_eq (c b rs : ℚ) (n : Int) (hrs : rs ≠ 0) (hn : 0 < n)
    (h0 : INT_MIN ≤ ⌊(c + b / 2) / rs⌋) (h1 : ⌊(c + b / 2) / rs⌋ + n ≤ INT_MAX) :
    rootbox_axis c b rs n = some (Int.tmod (⌊(c + b / 2) / rs⌋ + n) n) := by
  have hc : ¬ (rs = 0 ∨ n = 0) := by
    intro h
    rcases h with h | h
    · exact hrs h
    · omega
  have hf : int_result ⌊(c + b / 2) / rs⌋ = some ⌊(c + b / 2) / rs⌋ :=
    int_result_of_range _ h0 (by omega)
  have hg : int_result (⌊(c + b / 2) / rs⌋ + n) = some (⌊(c + b / 2) / rs⌋ + n) :=
    int_result_of_range _ (by omega) h1
  have hm : ¬ (⌊(c + b / 2) / rs⌋ + n = INT_MIN ∧ n = -1) := by
    intro h; omega
  simp only [rootbox_axis, if_neg hc, hf, hg, if_neg hm]

/-- One axis: an index of `[0, n)` is left alone by the wrap, also after a shift by `n`. -/
theorem axis_wrap_inside (f n : Int) (h0 : 0 ≤ f) (h1 : f < n) :
    Int.tmod (f + n) n = f ∧ Int.tmod (f + n + n) n = f := by
  constructor
  · rw [Int.tmod_eq_emod (by omega) (by omega), Int.add_emod_self]
    exact Int.emod_eq_of_lt h0 h1
  · rw [Int.tmod_eq_emod (by omega) (by omega), Int.add_emod_self, Int.add_emod_self]
    exact Int.emod_eq_of_lt h0 h1

/-- Three axis indices in range give a row-major cell id in `[0, nx*ny*nz)`, and so do the
intermediate values of its computation. -/
theorem cell_id_range (i j k nx ny nz : Int)
    (hi : 0 ≤ i ∧ i < nx) (hj : 0 ≤ j ∧ j < ny) (hk : 0 ≤ k ∧ k < nz) :
    (0 ≤ (k * ny + j) * nx + i ∧ (k * ny + j) * nx + i < nx * ny * nz) ∧
    (0 ≤ k * ny ∧ k * ny < nx * ny * nz) ∧
    (0 ≤ k * ny + j ∧ k * ny + j < nx * ny * nz) ∧
    (0 ≤ (k * ny + j) * nx ∧ (k * ny + j) * nx < nx * ny * nz) := by
  obtain ⟨hi0, hi1⟩ := hi
  obtain ⟨hj0, hj1⟩ := hj
  obtain ⟨hk0, hk1⟩ := hk
  have hny : 0 ≤ ny := by omega
  have hnx : 0 ≤ nx := by omega
  have a1 : 0 ≤ k * ny := Int.mul_nonneg hk0 hny
  have a2 : 0 ≤ (k * ny + j) * nx := Int.mul_nonneg (by omega) hnx
  have a3 : k * ny ≤ (nz - 1) * ny := Int.mul_le_mul_of_nonneg_right (by omega) hny
  have a4 : (k * ny + j) * nx ≤ ((nz - 1) * ny + (ny - 1)) * nx :=
    Int.mul_le_mul_of_nonneg_right (by omega) hnx
  have e : ((nz - 1) * ny + (ny - 1)) * nx = nx * ny * nz - nx := by ring
  have a5 : (nz - 1) * ny + (ny - 1) ≤ ((nz - 1) * ny + (ny - 1)) * nx := by
    have : 0 ≤ (nz - 1) * ny + (ny - 1) := by
      have := Int.mul_nonneg (show (0 : Int) ≤ nz - 1 by omega) hny
      omega
    nlinarith
  refine ⟨⟨by omega, by omega⟩, ⟨a1, by omega⟩, ⟨by omega, by omega⟩, ⟨a2, by omega⟩⟩

/-- With the three axis indices in range and the number of cells inside the range of `int`,
`reb_get_rootbox_for_particle` is the row-major combination of the indices. -/
theorem rootbox_of_axes (s : reb_simulation) (pt : reb_particle) (i j k : Int)
    (h1 : s.root_size ≠ -1) (hcells : s.root_nx * s.root_ny * s.root_nz ≤ INT_MAX)
    (hx : rootbox_axis pt.x s.boxsize.x s.root_size s.root_nx = some i)
    (hy : rootbox_axis pt.y s.boxsize.y s.root_size s.root_ny = some j)
    (hz : rootbox_axis pt.z s.boxsize.z s.root_size s.root_nz = some k)
    (hi : 0 ≤ i ∧ i < s.root_nx) (hj : 0 ≤ j ∧ j < s.root_ny) (hk : 0 ≤ k ∧ k < s.root_nz) :
    reb_get_rootbox_for_particle s pt = some ((k * s.root_ny + j) * s.root_nx + i) := by
  obtain ⟨r1, r2, r3, r4⟩ := cell_id_range i j k _ _ _ hi hj hk
  have hmin : INT_MIN ≤ 0 := by decide
  have e1 := int_result_of_range (k * s.root_ny) (by omega) (by omega)
  have e2 := int_result_of_range (k * s.root_ny + j) (by omega) (by omega)
  have e3 := int_result_of_range ((k * s.root_ny + j) * s.root_nx) (by omega) (by omega)
  have e4 := int_result_of_range ((k * s.root_ny + j) * s.root_nx + i) (by omega) (by omega)
  simp only [reb_get_rootbox_for_particle, if_neg h1, hx, hy, hz, e1, e2, e3, e4]

/-- One axis of a box of `n` root boxes of size `rs`: a coordinate inside the box has its
grid coordinate in `[0, n)`, and a shift by the box length adds `n` to it. -/
theorem axis_floor_inside (rs b c : ℚ) (n : Int) (hrs : 0 < rs) (hb : b = rs * n)
    (hc : -(b / 2) ≤ c ∧ c < b / 2) :
    0 < n ∧ 0 ≤ ⌊(c + b / 2) / rs⌋ ∧ ⌊(c + b / 2) / rs⌋ < n ∧
      ⌊(c + b + b / 2) / rs⌋ = ⌊(c + b / 2) / rs⌋ + n := by
  obtain ⟨hc0, hc1⟩ := hc
  have hbpos : 0 < b := by linarith
  have hnq : (0 : ℚ) < (n : ℚ) := by
    rw [hb] at hbpos
    exact (mul_pos_iff_of_pos_left hrs).mp hbpos
  refine ⟨by exact_mod_cast hnq, ?_, ?_, ?_⟩
  · rw [Int.floor_nonneg]
    exact div_nonneg (by linarith) hrs.le
  · rw [Int.floor_lt, div_lt_iff₀ hrs]
    rw [hb] at hc1 ⊢
    nlinarith
  · have e : (c + b + b / 2) / rs = (c + b / 2) / rs + (n : ℚ) := by
      rw [hb]; field_simp; ring
    rw [e, Int.floor_add_int]

/-- The result of `reb_get_rootbox_for_particle` is a function of the grid configuration
and of the position. -/
theorem rootbox_congr (s t : reb_simulation) (pt qt : reb_particle)
    (hrs : s.root_size = t.root_size) (hbox : s.boxsize = t.boxsize)
    (hnx : s.root_nx = t.root_nx) (hny : s.root_ny = t.root_ny) (hnz : s.root_nz = t.root_nz)
    (hx : pt.x = qt.x) (hy : pt.y = qt.y) (hz : pt.z = qt.z) :
    reb_get_rootbox_for_particle s pt = reb_get_rootbox_for_particle t qt := by
  simp only [reb_get_rootbox_for_particle, hrs, hbox, hnx, hny, hnz, hx, hy, hz]


/-! ## What an add leaves alone -/

/-- The growth loop changes `allocatedN` and the block, nothing else. -/
theorem reb_add_local_grow_frame (E : Env) (n : Nat) :
    ∀ s : reb_simulation, (s.N + 1 - s.allocatedN).toNat = n →
      ∃ (a : Int) (ps : List reb_particle),
        reb_add_local_grow E s = { s with allocatedN := a, particles := ps } := by
  induction n using Nat.strong_induction_on with
  | _ n ih =>
    intro s hn
    by_cases hc : s.allocatedN ≤ s.N
    · obtain ⟨a, ps, hrun⟩ := ih (s.N + 1 - (s.allocatedN + 128)).toNat (by omega)
        { s with allocatedN := s.allocatedN + 128,
                 particles := realloc E s.particles (s.allocatedN + 128) } rfl
      refine ⟨a, ps, ?_⟩
      rw [reb_add_local_grow]
      simp only [hc, if_true]
      exact hrun
    · refine ⟨s.allocatedN, s.particles, ?_⟩
      rw [reb_add_local_grow]
      simp only [hc, if_false]

/-- A local add changes `N`, `allocatedN`, the block and the record of tree calls, nothing
else. -/
theorem reb_add_local_frame (E : Env) (t s' : reb_simulation) (pt : reb_particle)
    (h : reb_add_local E t pt = some s') :
    ∃ n a ps tr, s' = { t with N := n, allocatedN := a, particles := ps, tree_added := tr } := by
  unfold reb_add_local at h
  split_ifs at h with hb
  · injection h with h
    subst h
    exact ⟨_, _, _, _, rfl⟩
  · obtain ⟨a, ps, hg⟩ := reb_add_local_grow_frame E _ t rfl
    rw [hg] at h
    dsimp only at h
    cases hst : store ps t.N { pt with ap := none, sim := some t.self } with
    | none => rw [hst] at h; exact absurd h (by simp)
    | some ps' =>
      rw [hst] at h
      dsimp only at h
      split_ifs at h <;>
      · injection h with h
        subst h
        exact ⟨_, _, _, _, rfl⟩

/-- An add changes, beyond what its tracking prelude does, only `N`, `allocatedN`, the
block, the record of tree calls and the send queue. -/
theorem reb_add_frame (E : Env) (s s' : reb_simulation) (pt : reb_particle)
    (h : reb_add E s pt = some s') :
    ∃ n a ps tr q, s' = { reb_add_tracked E s pt with
      N := n, allocatedN := a, particles := ps, tree_added := tr, send_queue := q } := by
  unfold reb_add at h
  dsimp only at h
  split_ifs at h with hm
  · cases hp : reb_add_proc_id E (reb_add_tracked E s pt) pt with
    | none => rw [hp] at h; exact absurd h (by simp)
    | some p =>
      rw [hp] at h
      dsimp only at h
      split_ifs at h
      · injection h with h
        subst h
        exact ⟨_, _, _, _, _, rfl⟩
      · obtain ⟨n, a, ps, tr, e⟩ := reb_add_local_frame E _ _ pt h
        exact ⟨n, a, ps, tr, _, e⟩
  · obtain ⟨n, a, ps, tr, e⟩ := reb_add_local_frame E _ _ pt h
    exact ⟨n, a, ps, tr, _, e⟩

/-- The owner computed by the MPI build depends on the state only through the grid
configuration. -/
theorem reb_add_proc_id_congr (E : Env) (s t : reb_simulation) (pt : reb_particle)
    (hrs : s.root_size = t.root_size) (hbox : s.boxsize = t.boxsize)
    (hnx : s.root_nx = t.root_nx) (hny : s.root_ny = t.root_ny) (hnz : s.root_nz = t.root_nz) :
    reb_add_proc_id E s pt = reb_add_proc_id E t pt := by
  unfold reb_add_proc_id
  rw [rootbox_congr s t pt pt hrs hbox hnx hny hnz rfl rfl rfl]

/-- The tracking prelude does not change the owner. -/
theorem reb_add_proc_id_tracked (E : Env) (s : reb_simulation) (pt qt : reb_particle) :
    reb_add_proc_id E (reb_add_tracked E s qt) pt = reb_add_proc_id E s pt := by
  obtain ⟨a, b, c, ht⟩ := reb_add_tracked_frame E s qt
  rw [ht]
  exact reb_add_proc_id_congr E _ _ pt rfl rfl rfl rfl rfl

/-- On a valid store an add returns, in the MPI build as soon as the owner computation is
defined, and the store it leaves is valid. -/
theorem reb_add_total (E : Env) (s : reb_simulation) (pt : reb_particle)
    (hok : store_ok s) (hdef : E.MPI = true → reb_add_proc_id E s pt ≠ none) :
    ∃ s', reb_add E s pt = some s' ∧ store_ok s' := by
  obtain ⟨a, b, c, ht⟩ := reb_add_tracked_frame E s pt
  have hokt : store_ok (reb_add_tracked E s pt) := by rw [ht]; exact hok
  have hlocal : ∃ s', reb_add_local E (reb_add_tracked E s pt) pt = some s' ∧ store_ok s' := by
    by_cases hin : E.reb_boundary_particle_is_in_box (reb_add_tracked E s pt) pt = 0
    · exact ⟨_, by simp [reb_add_local, hin], hokt⟩
    · obtain ⟨s', h, _, _, _, hok', _⟩ := reb_add_local_spec E _ pt hokt hin
      exact ⟨s', h, hok'⟩
  by_cases hm : E.MPI = true
  · obtain ⟨p, hp⟩ := Option.ne_none_iff_exists'.mp (hdef hm)
    rw [← reb_add_proc_id_tracked E s pt pt] at hp
    by_cases hgate : p ≠ E.mpi_id ∧
        (reb_add_tracked E s pt).N ≥ (reb_add_tracked E s pt).N_active
    · refine ⟨{ reb_add_tracked E s pt with
          send_queue := (reb_add_tracked E s pt).send_queue ++ [(pt, p)] }, ?_, hokt⟩
      simp only [reb_add, hm, if_true, hp]
      rw [if_pos hgate]
    · obtain ⟨s', h, hok'⟩ := hlocal
      refine ⟨s', ?_, hok'⟩
      simp only [reb_add, hm, if_true, hp]
      rw [if_neg hgate, h]
  · obtain ⟨s', h, hok'⟩ := hlocal
    refine ⟨s', ?_, hok'⟩
    simp only [reb_add, hm]
    simpa using h


/-! ## The two largest radii -/

/-- The tracker after the prelude of `reb_add`, with collision tracking compiled in. -/
theorem reb_add_tracked_radius (E : Env) (s : reb_simulation) (pt : reb_particle)
    (hcoll : E.COLLISIONS_NONE = false) :
    (s.max_radius_0 ≤ pt.r →
      (reb_add_tracked E s pt).max_radius_0 = pt.r ∧
      (reb_add_tracked E s pt).max_radius_1 = s.max_radius_0) ∧
    (pt.r < s.max_radius_0 → s.max_radius_1 ≤ pt.r →
      (reb_add_tracked E s pt).max_radius_0 = s.max_radius_0 ∧
      (reb_add_tracked E s pt).max_radius_1 = pt.r) ∧
    (pt.r < s.max_radius_0 → pt.r < s.max_radius_1 →
      (reb_add_tracked E s pt).max_radius_0 = s.max_radius_0 ∧
      (reb_add_tracked E s pt).max_radius_1 = s.max_radius_1) := by
  have hc : ¬ (E.COLLISIONS_NONE = true) := by simp [hcoll]
  refine ⟨fun h => ?_, fun h1 h2 => ?_, fun h1 h2 => ?_⟩
  · unfold reb_add_tracked
    dsimp only
    rw [if_neg hc, if_pos (show pt.r ≥ s.max_radius_0 from h)]
    split_ifs <;> exact ⟨rfl, rfl⟩
  · unfold reb_add_tracked
    dsimp only
    rw [if_neg hc, if_neg (show ¬ pt.r ≥ s.max_radius_0 from not_le.mpr h1),
      if_pos (show pt.r ≥ s.max_radius_1 from h2)]
    split_ifs <;> exact ⟨rfl, rfl⟩
  · unfold reb_add_tracked
    dsimp only
    rw [if_neg hc, if_neg (show ¬ pt.r ≥ s.max_radius_0 from not_le.mpr h1),
      if_neg (show ¬ pt.r ≥ s.max_radius_1 from not_le.mpr h2)]
    split_ifs <;> exact ⟨rfl, rfl⟩

/-- One update of the tracker keeps it on the two largest radii seen. -/
theorem two_largest_step (E : Env) (s : reb_simulation) (pt : reb_particle) (l : List ℚ)
    (hcoll : E.COLLISIONS_NONE = false)
    (h : two_largest l s.max_radius_0 s.max_radius_1) :
    two_largest (l ++ [pt.r]) (reb_add_tracked E s pt).max_radius_0
      (reb_add_tracked E s pt).max_radius_1 := by
  obtain ⟨rest, hperm, hle, hrest⟩ := h
  obtain ⟨t1, t2, t3⟩ := reb_add_tracked_radius E s pt hcoll
  have hp : (l ++ [pt.r]).Perm (pt.r :: s.max_radius_0 :: s.max_radius_1 :: rest) :=
    (List.perm_append_singleton _ _).trans (hperm.cons _)
  rcases le_or_lt s.max_radius_0 pt.r with h0 | h0
  · obtain ⟨e0, e1⟩ := t1 h0
    rw [e0, e1]
    refine ⟨s.max_radius_1 :: rest, hp, h0, ?_⟩
    intro x hx
    rcases List.mem_cons.mp hx with rfl | hx
    · exact hle
    · exact (hrest x hx).trans hle
  · rcases le_or_lt s.max_radius_1 pt.r with h1 | h1
    · obtain ⟨e0, e1⟩ := t2 h0 h1
      rw [e0, e1]
      refine ⟨s.max_radius_1 :: rest, hp.trans (List.Perm.swap _ _ _), h0.le, ?_⟩
      intro x hx
      rcases List.mem_cons.mp hx with rfl | hx
      · exact h1
      · exact (hrest x hx).trans h1
    · obtain ⟨e0, e1⟩ := t3 h0 h1
      rw [e0, e1]
      refine ⟨pt.r :: rest, ?_, hle, ?_⟩
      · exact hp.trans ((List.Perm.swap _ _ _).trans ((List.Perm.swap _ _ _).cons _))
      · intro x hx
        rcases List.mem_cons.mp hx with rfl | hx
        · exact h1.le
        · exact hrest x hx

/-- A run of adds on a valid store returns, and the tracker follows the two largest radii of
what was seen before and the radii added. -/
theorem reb_add_all_radius (E : Env) (hcoll : E.COLLISIONS_NONE = false)
    (pts : List reb_particle) :
    ∀ (s : reb_simulation) (l : List ℚ), store_ok s →
      (∀ pt ∈ pts, E.MPI = true → reb_add_proc_id E s pt ≠ none) →
      two_largest l s.max_radius_0 s.max_radius_1 →
      ∃ s', reb_add_all E s pts = some s' ∧
        two_largest (l ++ pts.map reb_particle.r) s'.max_radius_0 s'.max_radius_1 := by
  induction pts with
  | nil =>
    intro s l _ _ h
    exact ⟨s, rfl, by simpa using h⟩
  | cons pt pts ih =>
    intro s l hok hdef h
    obtain ⟨s1, h1, hok1⟩ := reb_add_total E s pt hok (hdef pt (List.mem_cons_self _ _))
    obtain ⟨n, a, ps, tr, q, e⟩ := reb_add_frame E s s1 pt h1
    obtain ⟨a', b', c', ht⟩ := reb_add_tracked_frame E s pt
    have hstep := two_largest_step E s pt l hcoll h
    have hm0 : s1.max_radius_0 = (reb_add_tracked E s pt).max_radius_0 := by rw [e]
    have hm1 : s1.max_radius_1 = (reb_add_tracked E s pt).max_radius_1 := by rw [e]
    rw [← hm0, ← hm1] at hstep
    have hdef1 : ∀ qt ∈ pts, E.MPI = true → reb_add_proc_id E s1 qt ≠ none := by
      intro qt hq hm
      have : reb_add_proc_id E s1 qt = reb_add_proc_id E s qt := by
        rw [e, ht]
        exact reb_add_proc_id_congr E _ _ qt rfl rfl rfl rfl rfl
      rw [this]
      exact hdef qt (List.mem_cons_of_mem _ hq) hm
    obtain ⟨s', hrun, hfin⟩ := ih s1 (l ++ [pt.r]) hok1 hdef1 hstep
    refine ⟨s', ?_, by simpa using hfin⟩
    simp only [reb_add_all, List.foldlM_cons, h1] at hrun ⊢
    exact hrun

/-- Claim C18: with collision tracking compiled in and the tracker at `(0, 0)`, after any
sequence of `reb_add` calls on a valid store (particles in the box or not, radii
`r1 .. rn` of any sign; in the MPI build the owner computation has to be defined)
`max_radius[0]` is the largest and `max_radius[1]` the second largest element, counting
duplicates, of the multiset `{0, 0, r1, .., rn}`; so `max_radius[0] ≥ max_radius[1]`; and
one `reb_add` with a radius equal to or larger than `max_radius[0]` puts that radius
into the first slot and the previous first slot into the second. -/
theorem reb_add_all_tracks_two_largest (E : Env) (s : reb_simulation)
    (pts : List reb_particle)
    (hcoll : E.COLLISIONS_NONE = false) (hok : store_ok s)
    (hdef : ∀ qt ∈ pts, E.MPI = true → reb_add_proc_id E s qt ≠ none)
    (h0 : s.max_radius_0 = 0) (h1 : s.max_radius_1 = 0) :
    (∃ s', reb_add_all E s pts = some s' ∧
      two_largest (0 :: 0 :: pts.map reb_particle.r) s'.max_radius_0 s'.max_radius_1 ∧
      s'.max_radius_1 ≤ s'.max_radius_0) ∧
    (∀ (t : reb_simulation) (pt : reb_particle), store_ok t → t.max_radius_0 ≤ pt.r →
      (E.MPI = true → reb_add_proc_id E t pt ≠ none) →
      ∃ t', reb_add E t pt = some t' ∧ t'.max_radius_0 = pt.r ∧
        t'.max_radius_1 = t.max_radius_0) := by
  constructor
  · have hstart : two_largest [0, 0] s.max_radius_0 s.max_radius_1 := by
      rw [h0, h1]
      exact ⟨[], List.Perm.refl _, le_refl _, by simp⟩
    obtain ⟨s', hrun, hfin⟩ := reb_add_all_radius E hcoll pts s [0, 0] hok
      hdef hstart
    obtain ⟨rest, hp, hle, hr⟩ := hfin
    exact ⟨s', hrun, ⟨rest, hp, hle, hr⟩, hle⟩
  · intro t pt hokt hge hd
    obtain ⟨t', ht', _⟩ := reb_add_total E t pt hokt hd
    obtain ⟨n, a, ps, tr, q, e⟩ := reb_add_frame E t t' pt ht'
    obtain ⟨e0, e1⟩ := (reb_add_tracked_radius E t pt hcoll).1 hge
    refine ⟨t', ht', ?_, ?_⟩
    · rw [e]; exact e0
    · rw [e]; exact e1


/-! ## The capacity along a run of adds -/

/-- The growth loop on a full block (`N = allocatedN`) adds one increment of 128 slots. -/
theorem reb_add_local_grow_full (E : Env) (t : reb_simulation) (h : t.N = t.allocatedN) :
    reb_add_local_grow E t =
      { t with allocatedN := t.allocatedN + 128,
               particles := realloc E t.particles (t.allocatedN + 128) } := by
  rw [reb_add_local_grow]
  simp only [h, le_refl, if_true]
  rw [reb_add_local_grow]
  have hc : ¬ (t.allocatedN + 128 ≤ t.allocatedN) := by omega
  simp only [h, hc, if_false]

/-- The capacity after a local add of an accepted particle is the one the growth loop
leaves. -/
theorem reb_add_local_capacity (E : Env) (t s' : reb_simulation) (pt : reb_particle)
    (hin : E.reb_boundary_particle_is_in_box t pt ≠ 0)
    (h : reb_add_local E t pt = some s') :
    s'.allocatedN = (reb_add_local_grow E t).allocatedN := by
  unfold reb_add_local at h
  rw [if_neg hin] at h
  dsimp only at h
  cases hst : store (reb_add_local_grow E t).particles (reb_add_local_grow E t).N
      { pt with ap := none, sim := some (reb_add_local_grow E t).self } with
  | none => rw [hst] at h; exact absurd h (by simp)
  | some ps' =>
    rw [hst] at h
    dsimp only at h
    split_ifs at h <;>
    · injection h with h
      subst h
      rfl

/-- A local add of an accepted particle to a valid store, with the exact capacity: it
grows by 128 exactly when the block is full. -/
theorem reb_add_local_exact (E : Env) (t : reb_simulation) (pt : reb_particle)
    (hok : store_ok t) (hin : E.reb_boundary_particle_is_in_box t pt ≠ 0) :
    ∃ s', reb_add_local E t pt = some s' ∧ store_ok s' ∧ s'.N = t.N + 1 ∧
      s'.self = t.self ∧
      s'.allocatedN = (if t.N < t.allocatedN then t.allocatedN else t.allocatedN + 128) ∧
      load s'.particles t.N = some { pt with ap := none, sim := some t.self } ∧
      (∀ i : Int, 0 ≤ i → i < t.N → load s'.particles i = load t.particles i) := by
  obtain ⟨s', hrun, hN, hnew, hold, hok', _, hsame, _⟩ := reb_add_local_spec E t pt hok hin
  obtain ⟨n, a, ps, tr, e⟩ := reb_add_local_frame E t s' pt hrun
  refine ⟨s', hrun, hok', hN, by rw [e], ?_, hnew, hold⟩
  by_cases hc : t.N < t.allocatedN
  · rw [if_pos hc]; exact hsame hc
  · rw [if_neg hc, reb_add_local_capacity E t s' pt hin hrun,
      reb_add_local_grow_full E t (by have := hok.2.1; omega)]

/-- The number of increments of 128 needed for `k` slots. -/
theorem ceil_div_128 (k : Nat) : ⌈(k : ℚ) / 128⌉ = ((k : Int) + 127) / 128 := by
  rw [Int.ceil_eq_iff]
  have h1 : 128 * (((k : Int) + 127) / 128) ≤ (k : Int) + 127 :=
    Int.mul_ediv_self_le (by decide)
  have h2 : (k : Int) + 127 < 128 * (((k : Int) + 127) / 128) + 128 :=
    Int.lt_mul_ediv_self_add (by decide)
  have h3 : 128 * (((k : Int) + 127) / 128) - 128 < (k : Int) := by omega
  have h4 : (k : Int) ≤ 128 * (((k : Int) + 127) / 128) := by omega
  have q3 : ((128 * (((k : Int) + 127) / 128) - 128 : Int) : ℚ) < ((k : Int) : ℚ) := by
    exact_mod_cast h3
  have q4 : (((k : Int)) : ℚ) ≤ ((128 * (((k : Int) + 127) / 128) : Int) : ℚ) := by
    exact_mod_cast h4
  push_cast at q3 q4
  constructor
  · rw [lt_div_iff₀ (by norm_num)]; linarith
  · rw [div_le_iff₀ (by norm_num)]; linarith

/-- A run of adds from an empty store, every add accepted and local: after the first `k`
adds the store is valid and holds the `k` particles in a block of `128 * ((k+127)/128)`
slots. -/
theorem reb_add_all_prefix (E : Env) (s : reb_simulation) (pts : List reb_particle)
    (hN : s.N = 0) (ha : s.allocatedN = 0) (hp : s.particles = [])
    (hrun : ∀ (k : Nat) (t : reb_simulation) (pt : reb_particle), pts[k]? = some pt →
      reb_add_all E s (pts.take k) = some t →
      E.reb_boundary_particle_is_in_box (reb_add_tracked E t pt) pt ≠ 0 ∧
      (E.MPI = false ∨ reb_add_proc_id E (reb_add_tracked E t pt) pt = some E.mpi_id))
    (k : Nat) :
    k ≤ pts.length → ∃ t, reb_add_all E s (pts.take k) = some t ∧ store_ok t ∧
      t.self = s.self ∧ t.N = k ∧ t.allocatedN = 128 * (((k : Int) + 127) / 128) ∧
      ∀ (i : Nat) (pt : reb_particle), i < k → pts[i]? = some pt →
        load t.particles (i : Int) = some { pt with ap := none, sim := some s.self } := by
  induction k with
  | zero =>
    intro _
    refine ⟨s, rfl, ⟨by omega, by omega, by simp [hp, ha]⟩, rfl, by simp [hN], by simp [ha], ?_⟩
    intro i pt hi
    omega
  | succ k ih =>
    intro hk
    obtain ⟨t, ht, hokt, hself, htN, hta, hload⟩ := ih (by omega)
    obtain ⟨pt, hpt⟩ : ∃ pt, pts[k]? = some pt := ⟨pts[k], by simp [show k < pts.length by omega]⟩
    obtain ⟨hin, hloc⟩ := hrun k t pt hpt ht
    obtain ⟨fN, fa, fp, _, _, fself⟩ := reb_add_tracked_fields E t pt
    have hokq : store_ok (reb_add_tracked E t pt) := by
      obtain ⟨a', b', c', e⟩ := reb_add_tracked_frame E t pt
      rw [e]; exact hokt
    obtain ⟨s', hs', hok', hN', hself', hcap, hnew, hold⟩ :=
      reb_add_local_exact E (reb_add_tracked E t pt) pt hokq hin
    rw [fN, fa] at hcap
    rw [fN, fself] at hnew
    rw [fN] at hN' hold
    rw [fp] at hold
    refine ⟨s', ?_, hok', by rw [hself', fself, hself], by rw [hN', htN]; push_cast; rfl, ?_, ?_⟩
    · rw [List.take_succ, hpt]
      simp only [reb_add_all, Option.toList, List.foldlM_append] at ht ⊢
      rw [ht]
      simp only [Option.bind_eq_bind, Option.some_bind, List.foldlM_cons, List.foldlM_nil]
      rw [reb_add_eq_local E t pt hloc, hs']
      rfl
    · rw [hcap, htN, hta]
      push_cast
      have hle : t.N ≤ t.allocatedN := hokt.2.1
      rw [htN, hta] at hle
      split_ifs with hc
      · omega
      · omega
    · intro i qt hi hq
      rcases Nat.lt_or_ge i k with hik | hik
      · rw [hold (i : Int) (by omega) (by rw [htN]; exact_mod_cast hik)]
        exact hload i qt hik hq
      · have e : i = k := by omega
        subst e
        rw [hpt] at hq
        injection hq with hq
        subst hq
        rw [← htN, hnew, hself]


/-! ## Removal and the other counters -/

/-- What a call of `reb_remove` that returns can have done to `N`: nothing, or, past the
guards, lowered it by 1; it never writes `N_active`. -/
theorem reb_remove_counters (s s' : reb_simulation) (index keepSorted r : Int)
    (h : reb_remove s index keepSorted = some (r, s')) :
    s'.N_active = s.N_active ∧
      (s'.N = s.N ∨ (s.N ≠ 1 ∧ index < s.N ∧ s'.N = s.N - 1)) := by
  unfold reb_remove at h
  split_ifs at h with h1 h2 h3 h4
  · injection h with h; injection h with _ h; subst h; exact ⟨rfl, Or.inl rfl⟩
  · injection h with h; injection h with _ h; subst h; exact ⟨rfl, Or.inl rfl⟩
  · injection h with h; injection h with _ h; subst h; exact ⟨rfl, Or.inl rfl⟩
  · dsimp only at h
    cases hs : reb_remove_shift s.particles (s.N - 1) index with
    | none => rw [hs] at h; exact absurd h (by simp)
    | some ps =>
      rw [hs] at h
      injection h with h; injection h with _ h; subst h
      exact ⟨rfl, Or.inr ⟨h1, by omega, rfl⟩⟩
  · dsimp only at h
    cases hl : load s.particles (s.N - 1) with
    | none => rw [hl] at h; exact absurd h (by simp)
    | some p =>
      rw [hl] at h
      dsimp only at h
      cases hst : store s.particles index p with
      | none => rw [hst] at h; exact absurd h (by simp)
      | some ps =>
        rw [hst] at h
        injection h with h; injection h with _ h; subst h
        exact ⟨rfl, Or.inr ⟨h1, by omega, rfl⟩⟩

/-- A scan of `reb_remove_by_id` that returns either found nothing and changed nothing, or
returns what `reb_remove` returns at some index. -/
theorem reb_remove_by_id_scan_result (s s' : reb_simulation) (id keepSorted r : Int)
    (n : Nat) :
    ∀ i : Int, (s.N - i).toNat = n →
      reb_remove_by_id_scan s id keepSorted i = some (r, s') →
      (r = 0 ∧ s' = s) ∨ ∃ j : Int, reb_remove s j keepSorted = some (r, s') := by
  induction n using Nat.strong_induction_on with
  | _ n ih =>
    intro i hn h
    rw [reb_remove_by_id_scan] at h
    split_ifs at h with hc
    · cases hl : load s.particles i with
      | none => rw [hl] at h; exact absurd h (by simp)
      | some p =>
        rw [hl] at h
        dsimp only at h
        split_ifs at h with hid
        · exact Or.inr ⟨i, h⟩
        · exact ih (s.N - (i + 1)).toNat (by omega) (i + 1) rfl h
    · injection h with h; injection h with h1 h2
      exact Or.inl ⟨h1.symm, h2.symm⟩

/-- A removal that reports success leaves `N_active` as it was, and leaves it in range when
it was below `N` (or when `N = 1`, where nothing is removed). -/
theorem reb_remove_active_aux (s s' : reb_simulation) (index keepSorted : Int)
    (hact : s.N_active = -1 ∨ (0 ≤ s.N_active ∧ s.N_active < s.N) ∨
      (0 ≤ s.N_active ∧ s.N_active ≤ s.N ∧ s.N = 1))
    (h : reb_remove s index keepSorted = some (1, s')) :
    s'.N_active = s.N_active ∧
      (s'.N_active = -1 ∨ (0 ≤ s'.N_active ∧ s'.N_active ≤ s'.N)) := by
  obtain ⟨ha, hN⟩ := reb_remove_counters s s' index keepSorted 1 h
  refine ⟨ha, ?_⟩
  rw [ha]
  rcases hN with hN | ⟨h1, _, hN⟩
  · rw [hN]
    rcases hact with h | h | h
    · exact Or.inl h
    · exact Or.inr ⟨h.1, h.2.le⟩
    · exact Or.inr ⟨h.1, h.2.1⟩
  · rw [hN]
    rcases hact with h | h | h
    · exact Or.inl h
    · exact Or.inr ⟨h.1, by omega⟩
    · exact absurd h.2.2 h1

/-- The shifting loop, when it returns, returns a block of the same length. -/
theorem reb_remove_shift_length (N : Int) (n : Nat) :
    ∀ (ps ps' : List reb_particle) (j : Int), (N - j).toNat = n →
      reb_remove_shift ps N j = some ps' → ps'.length = ps.length := by
  induction n using Nat.strong_induction_on with
  | _ n ih =>
    intro ps ps' j hn h
    rw [reb_remove_shift] at h
    split_ifs at h with hc
    · cases hl : load ps (j + 1) with
      | none => rw [hl] at h; exact absurd h (by simp)
      | some p =>
        rw [hl] at h
        dsimp only at h
        cases hst : store ps j p with
        | none => rw [hst] at h; exact absurd h (by simp)
        | some ps1 =>
          rw [hst] at h
          dsimp only at h
          have h1 := ih (N - (j + 1)).toNat (by omega) ps1 ps' (j + 1) rfl h
          unfold store at hst
          split_ifs at hst
          injection hst with hst
          rw [h1, ← hst, List.length_set]
    · injection h with h
      rw [h]

/-- The store invariant survives a call of `reb_remove` with a non-negative index. -/
theorem store_ok_reb_remove (s s' : reb_simulation) (index keepSorted r : Int)
    (hok : store_ok s) (h0 : 0 ≤ index)
    (h : reb_remove s index keepSorted = some (r, s')) : store_ok s' := by
  obtain ⟨hN0, hcap, hlen⟩ := hok
  unfold reb_remove at h
  split_ifs at h with h1 h2 h3 h4
  · injection h with h; injection h with _ h; subst h; exact ⟨hN0, hcap, hlen⟩
  · injection h with h; injection h with _ h; subst h; exact ⟨hN0, hcap, hlen⟩
  · injection h with h; injection h with _ h; subst h; exact ⟨hN0, hcap, hlen⟩
  · dsimp only at h
    cases hs : reb_remove_shift s.particles (s.N - 1) index with
    | none => rw [hs] at h; exact absurd h (by simp)
    | some ps =>
      rw [hs] at h
      injection h with h; injection h with _ h; subst h
      have hl := reb_remove_shift_length _ _ _ _ _ rfl hs
      exact ⟨by simp only; omega, by simp only; omega, by simp only [hl]; exact hlen⟩
  · dsimp only at h
    cases hl : load s.particles (s.N - 1) with
    | none => rw [hl] at h; exact absurd h (by simp)
    | some p =>
      rw [hl] at h
      dsimp only at h
      cases hst : store s.particles index p with
      | none => rw [hst] at h; exact absurd h (by simp)
      | some ps =>
        rw [hst] at h
        injection h with h; injection h with _ h; subst h
        unfold store at hst
        split_ifs at hst
        injection hst with hst
        exact ⟨by simp only; omega, by simp only; omega,
          by simp only [← hst, List.length_set]; exact hlen⟩

/-- The store invariant survives `reb_add`, `reb_remove_all`, `reb_remove` with a
non-negative index and `reb_remove_by_id`, whenever the call returns. -/
theorem store_ok_preserved_elsewhere (E : Env) (s : reb_simulation) (hok : store_ok s) :
    (∀ pt s', reb_add E s pt = some s' → store_ok s') ∧
    store_ok (reb_remove_all s) ∧
    (∀ index keepSorted r s', 0 ≤ index →
      reb_remove s index keepSorted = some (r, s') → store_ok s') ∧
    (∀ id keepSorted r s', reb_remove_by_id s id keepSorted = some (r, s') → store_ok s') := by
  refine ⟨?_, ⟨le_refl _, le_refl _, rfl⟩, ?_, ?_⟩
  · intro pt s' h
    by_cases hm : E.MPI = true
    · have hd : E.MPI = true → reb_add_proc_id E s pt ≠ none := by
        intro _ hnone
        rw [← reb_add_proc_id_tracked E s pt pt] at hnone
        simp [reb_add, hm, hnone] at h
      obtain ⟨s'', h', hok'⟩ := reb_add_total E s pt hok hd
      rw [h] at h'
      injection h' with h'
      rw [h']; exact hok'
    · obtain ⟨s'', h', hok'⟩ := reb_add_total E s pt hok (fun h => absurd h hm)
      rw [h] at h'
      injection h' with h'
      rw [h']; exact hok'
  · intro index keepSorted r s' h0 h
    exact store_ok_reb_remove s s' index keepSorted r hok h0 h
  · intro id keepSorted r s' h
    have key : ∀ (n : Nat) (i : Int), 0 ≤ i → (s.N - i).toNat = n →
        reb_remove_by_id_scan s id keepSorted i = some (r, s') → store_ok s' := by
      intro n
      induction n using Nat.strong_induction_on with
      | _ n ih =>
        intro i hi hn h
        rw [reb_remove_by_id_scan] at h
        split_ifs at h with hc
        · cases hl : load s.particles i with
          | none => rw [hl] at h; exact absurd h (by simp)
          | some p =>
            rw [hl] at h
            dsimp only at h
            split_ifs at h with hid
            · exact store_ok_reb_remove s s' i keepSorted r hok hi h
            · exact ih (s.N - (i + 1)).toNat (by omega) (i + 1) (by omega) rfl h
        · injection h with h; injection h with _ h2
          rw [← h2]; exact hok
    exact key _ 0 (le_refl _) rfl h

/-! ## The remaining claims -/

/-- Claim C15, as the code has it: starting from an empty store (`N = 0`, capacity 0), when
every particle of the sequence is accepted by the boundary predicate and stays local
at the moment it is added (always in the single-process build; in the MPI build when
the local process owns its cell), then after the first `k` adds, for every `k` up to the
length `n` of the sequence, `N = k`, the capacity is exactly `128 * ceil(k/128)`, and for
every `i < k` the entry at index `i` has the field values of the `i`-th added particle
(with `ap` cleared and `sim` set); so for `k ≤ 130` the capacity is 0 at `k = 0`, 128
for `1 ≤ k ≤ 128` and 256 from `k = 129` on. -/
theorem reb_add_all_capacity_local (E : Env) (s : reb_simulation) (pts : List reb_particle)
    (hN : s.N = 0) (ha : s.allocatedN = 0) (hp : s.particles = [])
    (hrun : ∀ (k : Nat) (t : reb_simulation) (pt : reb_particle), pts[k]? = some pt →
      reb_add_all E s (pts.take k) = some t →
      E.reb_boundary_particle_is_in_box (reb_add_tracked E t pt) pt ≠ 0 ∧
      (E.MPI = false ∨ reb_add_proc_id E (reb_add_tracked E t pt) pt = some E.mpi_id)) :
    ∀ k : Nat, k ≤ pts.length →
      ∃ t, reb_add_all E s (pts.take k) = some t ∧ t.N = k ∧
        t.allocatedN = 128 * ⌈(k : ℚ) / 128⌉ ∧
        (∀ (i : Nat) (pt : reb_particle), i < k → pts[i]? = some pt →
          load t.particles (i : Int) = some { pt with ap := none, sim := some s.self }) ∧
        (k ≤ 130 → t.allocatedN = if k = 0 then 0 else if k ≤ 128 then 128 else 256) := by
  intro k hk
  obtain ⟨t, ht, _, _, htN, hta, hload⟩ := reb_add_all_prefix E s pts hN ha hp hrun k hk
  refine ⟨t, ht, htN, by rw [hta, ceil_div_128], hload, ?_⟩
  intro hk130
  rw [hta]
  split_ifs with h0 h1
  · subst h0; rfl
  · omega
  · omega

/-- Claim C16, at the failing input: the empty store satisfies the invariant; `reb_remove`
with index `-1` and `keepSorted` set passes the range check `index >= N`, returns 1 and
leaves `N = -1`, which breaks `0 ≤ N`. -/
theorem reb_remove_negative_index_breaks_store_ok :
    store_ok (sample_sim []) ∧
    reb_remove (sample_sim []) (-1) 1 = some (1, { sample_sim [] with N := -1 }) ∧
    ¬ store_ok { sample_sim [] with N := -1 } := by
  refine ⟨by decide, ?_, by decide⟩
  simp [reb_remove, reb_remove_shift, sample_sim]

/-- Claim C17, as the code has it: `reb_remove` and `reb_remove_by_id` never write
`N_active`; so for every state in which `N_active` is `-1`, or `0 ≤ N_active < N`, or
`0 ≤ N_active ≤ N = 1`, after a call that returns 1 (either `keepSorted` flag)
`N_active` is unchanged and is still `-1` or satisfies `0 ≤ N_active ≤ N` for the new
`N`. -/
theorem reb_remove_keeps_N_active (s s1 s2 : reb_simulation) (index id keepSorted : Int)
    (hact : s.N_active = -1 ∨ (0 ≤ s.N_active ∧ s.N_active < s.N) ∨
      (0 ≤ s.N_active ∧ s.N_active ≤ s.N ∧ s.N = 1)) :
    (reb_remove s index keepSorted = some (1, s1) →
      s1.N_active = s.N_active ∧
        (s1.N_active = -1 ∨ (0 ≤ s1.N_active ∧ s1.N_active ≤ s1.N))) ∧
    (reb_remove_by_id s id keepSorted = some (1, s2) →
      s2.N_active = s.N_active ∧
        (s2.N_active = -1 ∨ (0 ≤ s2.N_active ∧ s2.N_active ≤ s2.N))) := by
  refine ⟨reb_remove_active_aux s s1 index keepSorted hact, ?_⟩
  intro h
  rcases reb_remove_by_id_scan_result s s2 id keepSorted 1 _ 0 rfl h with ⟨h1, _⟩ | ⟨j, hj⟩
  · exact absurd h1 (by decide)
  · exact reb_remove_active_aux s s2 j keepSorted hact hj

/-- Claim C19: in the MPI build, with `root_n/mpi_num > 0` and a defined cell id `c`, when
the owner `c/(root_n/mpi_num)` differs from the local process and `N ≥ N_active`,
`reb_add` appends the particle once, with that owner, to the send queue and leaves `N`,
the capacity and the stored particles unchanged; in every other case `reb_add` is the
local add (boundary check, growth, append) after the tracking prelude. -/
theorem reb_add_mpi_gate (E : Env) (s : reb_simulation) (pt : reb_particle) (c : Int)
    (hmpi : E.MPI = true) (hper : 0 < Int.tdiv E.root_n E.mpi_num)
    (hcell : reb_get_rootbox_for_particle s pt = some c) :
    (Int.tdiv c (Int.tdiv E.root_n E.mpi_num) ≠ E.mpi_id ∧ s.N ≥ s.N_active →
      ∃ s', reb_add E s pt = some s' ∧
        s'.send_queue = s.send_queue ++ [(pt, Int.tdiv c (Int.tdiv E.root_n E.mpi_num))] ∧
        s'.N = s.N ∧ s'.allocatedN = s.allocatedN ∧ s'.particles = s.particles) ∧
    (¬ (Int.tdiv c (Int.tdiv E.root_n E.mpi_num) ≠ E.mpi_id ∧ s.N ≥ s.N_active) →
      reb_add E s pt = reb_add_local E (reb_add_tracked E s pt) pt) := by
  obtain ⟨a, b, d, ht⟩ := reb_add_tracked_frame E s pt
  obtain ⟨fN, fa, fp, fact, _, _⟩ := reb_add_tracked_fields E s pt
  have hnum : E.mpi_num ≠ 0 := by
    intro h0
    rw [h0, Int.tdiv_zero] at hper
    exact absurd hper (by decide)
  have hproc : reb_add_proc_id E (reb_add_tracked E s pt) pt =
      some (Int.tdiv c (Int.tdiv E.root_n E.mpi_num)) := by
    rw [reb_add_proc_id_tracked]
    unfold reb_add_proc_id
    rw [hcell]
    simp only [hnum, if_false, hper.ne']
  constructor
  · intro hgate
    have hgate' : Int.tdiv c (Int.tdiv E.root_n E.mpi_num) ≠ E.mpi_id ∧
        (reb_add_tracked E s pt).N ≥ (reb_add_tracked E s pt).N_active := by
      rw [fN, fact]; exact hgate
    refine ⟨{ reb_add_tracked E s pt with send_queue := (reb_add_tracked E s pt).send_queue ++
        [(pt, Int.tdiv c (Int.tdiv E.root_n E.mpi_num))] }, ?_, ?_, fN, fa, fp⟩
    · simp only [reb_add, hmpi, if_true, hproc]
      rw [if_pos hgate']
    · rw [ht]
  · intro hgate
    have hgate' : ¬ (Int.tdiv c (Int.tdiv E.root_n E.mpi_num) ≠ E.mpi_id ∧
        (reb_add_tracked E s pt).N ≥ (reb_add_tracked E s pt).N_active) := by
      rw [fN, fact]; exact hgate
    simp only [reb_add, hmpi, if_true, hproc]
    rw [if_neg hgate']


/-- The row-major formula in exact arithmetic: with `root_size > 0`,
`boxsize = root_size*root_count` on each axis, `2*root_count ≤ INT_MAX` on each axis and
at most `INT_MAX` cells, a position inside the box (`-boxsize/2 ≤ c < boxsize/2`) gets
the cell id `(k*root_ny + j)*root_nx + i`, where `i`, `j`, `k` are the grid coordinates
`floor((c + boxsize/2)/root_size)`; in the 2 x 2 x 2 grid of `sample_grid` the origin
has the grid coordinates `(1, 1, 1)` and the cell id 7. The rounding of `double`
arithmetic, which the code is subject to, is outside this statement. -/
theorem rootbox_row_major_inside_box (s : reb_simulation) (pt : reb_particle)
    (hrs : 0 < s.root_size)
    (hbx : s.boxsize.x = s.root_size * s.root_nx)
    (hby : s.boxsize.y = s.root_size * s.root_ny)
    (hbz : s.boxsize.z = s.root_size * s.root_nz)
    (hmx : 2 * s.root_nx ≤ INT_MAX) (hmy : 2 * s.root_ny ≤ INT_MAX)
    (hmz : 2 * s.root_nz ≤ INT_MAX)
    (hcells : s.root_nx * s.root_ny * s.root_nz ≤ INT_MAX)
    (hx : -(s.boxsize.x / 2) ≤ pt.x ∧ pt.x < s.boxsize.x / 2)
    (hy : -(s.boxsize.y / 2) ≤ pt.y ∧ pt.y < s.boxsize.y / 2)
    (hz : -(s.boxsize.z / 2) ≤ pt.z ∧ pt.z < s.boxsize.z / 2) :
    reb_get_rootbox_for_particle s pt =
      some ((⌊(pt.z + s.boxsize.z / 2) / s.root_size⌋ * s.root_ny
          + ⌊(pt.y + s.boxsize.y / 2) / s.root_size⌋) * s.root_nx
          + ⌊(pt.x + s.boxsize.x / 2) / s.root_size⌋) ∧
    (0 ≤ ⌊(pt.x + s.boxsize.x / 2) / s.root_size⌋ ∧
      ⌊(pt.x + s.boxsize.x / 2) / s.root_size⌋ < s.root_nx) ∧
    (0 ≤ ⌊(pt.y + s.boxsize.y / 2) / s.root_size⌋ ∧
      ⌊(pt.y + s.boxsize.y / 2) / s.root_size⌋ < s.root_ny) ∧
    (0 ≤ ⌊(pt.z + s.boxsize.z / 2) / s.root_size⌋ ∧
      ⌊(pt.z + s.boxsize.z / 2) / s.root_size⌋ < s.root_nz) ∧
    (⌊((sample_at 0 0 0).x + sample_grid.boxsize.x / 2) / sample_grid.root_size⌋ = 1 ∧
      ⌊((sample_at 0 0 0).y + sample_grid.boxsize.y / 2) / sample_grid.root_size⌋ = 1 ∧
      ⌊((sample_at 0 0 0).z + sample_grid.boxsize.z / 2) / sample_grid.root_size⌋ = 1 ∧
      reb_get_rootbox_for_particle sample_grid (sample_at 0 0 0) = some 7) := by
  obtain ⟨nx0, fx0, fx1, _⟩ := axis_floor_inside _ _ _ _ hrs hbx hx
  obtain ⟨ny0, fy0, fy1, _⟩ := axis_floor_inside _ _ _ _ hrs hby hy
  obtain ⟨nz0, fz0, fz1, _⟩ := axis_floor_inside _ _ _ _ hrs hbz hz
  have h1 : s.root_size ≠ -1 := by intro h; rw [h] at hrs; norm_num at hrs
  have hmin : INT_MIN ≤ 0 := by decide
  have ax := rootbox_axis_eq pt.x s.boxsize.x s.root_size s.root_nx hrs.ne' nx0
    (by omega) (by omega)
  have ay := rootbox_axis_eq pt.y s.boxsize.y s.root_size s.root_ny hrs.ne' ny0
    (by omega) (by omega)
  have az := rootbox_axis_eq pt.z s.boxsize.z s.root_size s.root_nz hrs.ne' nz0
    (by omega) (by omega)
  rw [(axis_wrap_inside _ _ fx0 fx1).1] at ax
  rw [(axis_wrap_inside _ _ fy0 fy1).1] at ay
  rw [(axis_wrap_inside _ _ fz0 fz1).1] at az
  refine ⟨rootbox_of_axes s pt _ _ _ h1 hcells ax ay az ⟨fx0, fx1⟩ ⟨fy0, fy1⟩ ⟨fz0, fz1⟩,
    ⟨fx0, fx1⟩, ⟨fy0, fy1⟩, ⟨fz0, fz1⟩, ?_⟩
  have hf : ⌊((0 : ℚ) + 10 / 2) / 5⌋ = 1 := by norm_num
  simp only [reb_get_rootbox_for_particle, rootbox_axis, sample_grid, sample_at, sample_sim,
    sample_particle, hf]
  decide

/-- One axis of the wrap-around in exact arithmetic: inside the box, a shift of the
coordinate by the box length does not change the axis index. -/
theorem rootbox_axis_shift (rs b c : ℚ) (n : Int) (hrs : 0 < rs) (hb : b = rs * n)
    (hm : 3 * n ≤ INT_MAX) (hc : -(b / 2) ≤ c ∧ c < b / 2) :
    ∃ i, rootbox_axis c b rs n = some i ∧ rootbox_axis (c + b) b rs n = some i ∧
      0 ≤ i ∧ i < n := by
  obtain ⟨n0, f0, f1, sh⟩ := axis_floor_inside _ _ _ _ hrs hb hc
  have hmin : INT_MIN ≤ 0 := by decide
  have a1 := rootbox_axis_eq c b rs n hrs.ne' n0 (by omega) (by omega)
  have a2 := rootbox_axis_eq (c + b) b rs n hrs.ne' n0 (by rw [sh]; omega) (by rw [sh]; omega)
  rw [(axis_wrap_inside _ _ f0 f1).1] at a1
  rw [sh, (axis_wrap_inside _ _ f0 f1).2] at a2
  exact ⟨_, a1, a2, f0, f1⟩

/-- The wrap-around in exact arithmetic: with `root_size > 0`,
`boxsize = root_size*root_count` and `3*root_count ≤ INT_MAX` on each axis and at most
`INT_MAX` cells, the cell id of a position inside the box is defined and does not change
when one coordinate is shifted by one box length; so `x = +boxsize.x/2` has the cell of
`x = -boxsize.x/2`. The rounding of `double` arithmetic, which the code is subject to, is
outside this statement. -/
theorem rootbox_shift_by_box_length (s : reb_simulation) (pt : reb_particle)
    (hrs : 0 < s.root_size)
    (hbx : s.boxsize.x = s.root_size * s.root_nx)
    (hby : s.boxsize.y = s.root_size * s.root_ny)
    (hbz : s.boxsize.z = s.root_size * s.root_nz)
    (hmx : 3 * s.root_nx ≤ INT_MAX) (hmy : 3 * s.root_ny ≤ INT_MAX)
    (hmz : 3 * s.root_nz ≤ INT_MAX)
    (hcells : s.root_nx * s.root_ny * s.root_nz ≤ INT_MAX)
    (hx : -(s.boxsize.x / 2) ≤ pt.x ∧ pt.x < s.boxsize.x / 2)
    (hy : -(s.boxsize.y / 2) ≤ pt.y ∧ pt.y < s.boxsize.y / 2)
    (hz : -(s.boxsize.z / 2) ≤ pt.z ∧ pt.z < s.boxsize.z / 2) :
    (∃ c, reb_get_rootbox_for_particle s pt = some c) ∧
    reb_get_rootbox_for_particle s { pt with x := pt.x + s.boxsize.x } =
      reb_get_rootbox_for_particle s pt ∧
    reb_get_rootbox_for_particle s { pt with y := pt.y + s.boxsize.y } =
      reb_get_rootbox_for_particle s pt ∧
    reb_get_rootbox_for_particle s { pt with z := pt.z + s.boxsize.z } =
      reb_get_rootbox_for_particle s pt ∧
    reb_get_rootbox_for_particle s { pt with x := s.boxsize.x / 2 } =
      reb_get_rootbox_for_particle s { pt with x := -(s.boxsize.x / 2) } := by
  obtain ⟨i, xi, xi', ri⟩ := rootbox_axis_shift _ _ _ _ hrs hbx hmx hx
  obtain ⟨j, yj, yj', rj⟩ := rootbox_axis_shift _ _ _ _ hrs hby hmy hy
  obtain ⟨k, zk, zk', rk⟩ := rootbox_axis_shift _ _ _ _ hrs hbz hmz hz
  have hbpos : 0 < s.boxsize.x := by linarith [hx.1, hx.2]
  obtain ⟨e, xe, xe', re⟩ := rootbox_axis_shift s.root_size s.boxsize.x (-(s.boxsize.x / 2))
    s.root_nx hrs hbx hmx ⟨le_refl _, by linarith⟩
  have hhalf : -(s.boxsize.x / 2) + s.boxsize.x = s.boxsize.x / 2 := by ring
  rw [hhalf] at xe'
  have h1 : s.root_size ≠ -1 := by intro h; rw [h] at hrs; norm_num at hrs
  have base := rootbox_of_axes s pt i j k h1 hcells xi yj zk ri rj rk
  refine ⟨⟨_, base⟩, ?_, ?_, ?_, ?_⟩
  · rw [base]
    exact rootbox_of_axes s { pt with x := pt.x + s.boxsize.x } i j k h1 hcells xi' yj zk
      ri rj rk
  · rw [base]
    exact rootbox_of_axes s { pt with y := pt.y + s.boxsize.y } i j k h1 hcells xi yj' zk
      ri rj rk
  · rw [base]
    exact rootbox_of_axes s { pt with z := pt.z + s.boxsize.z } i j k h1 hcells xi yj zk'
      ri rj rk
  · rw [rootbox_of_axes s { pt with x := s.boxsize.x / 2 } e j k h1 hcells xe' yj zk re rj rk,
      rootbox_of_axes s { pt with x := -(s.boxsize.x / 2) } e j k h1 hcells xe yj zk re rj rk]

/-- Claim C14: when `root_size` is the unset value `-1`, `reb_get_rootbox_for_particle`
returns 0 whatever the position, the box size and the root counts; and two calls with the
same grid configuration and the same position return the same result, whatever `N`, the
capacity, the counters and the stored particles are. -/
theorem rootbox_unset_and_pure (s t : reb_simulation) (pt qt : reb_particle)
    (hrs : s.root_size = t.root_size) (hbox : s.boxsize = t.boxsize)
    (hnx : s.root_nx = t.root_nx) (hny : s.root_ny = t.root_ny) (hnz : s.root_nz = t.root_nz)
    (hx : pt.x = qt.x) (hy : pt.y = qt.y) (hz : pt.z = qt.z) :
    (s.root_size = -1 → reb_get_rootbox_for_particle s pt = some 0) ∧
    reb_get_rootbox_for_particle s pt = reb_get_rootbox_for_particle t qt := by
  refine ⟨?_, rootbox_congr s t pt qt hrs hbox hnx hny hnz hx hy hz⟩
  intro h
  simp [reb_get_rootbox_for_particle, h]

/-- Instance of the row-major formula: the position `(1, -5, 4)` in the 2 x 2 x 2 grid. -/
theorem rootbox_row_major_inside_box_witness :
    (0 < sample_grid.root_size ∧
      sample_grid.boxsize.x = sample_grid.root_size * sample_grid.root_nx ∧
      (-(sample_grid.boxsize.x / 2) ≤ (sample_at 1 (-5) 4).x ∧
        (sample_at 1 (-5) 4).x < sample_grid.boxsize.x / 2)) ∧
    reb_get_rootbox_for_particle sample_grid (sample_at 1 (-5) 4) =
      some ((⌊((sample_at 1 (-5) 4).z + sample_grid.boxsize.z / 2) / sample_grid.root_size⌋
            * sample_grid.root_ny
          + ⌊((sample_at 1 (-5) 4).y + sample_grid.boxsize.y / 2) / sample_grid.root_size⌋)
            * sample_grid.root_nx
          + ⌊((sample_at 1 (-5) 4).x + sample_grid.boxsize.x / 2) / sample_grid.root_size⌋) :=
  ⟨⟨by decide,
      by norm_num [sample_grid, sample_sim],
      by norm_num [sample_grid, sample_at, sample_sim, sample_particle]⟩,
    (rootbox_row_major_inside_box sample_grid (sample_at 1 (-5) 4) (by decide)
      (by norm_num [sample_grid, sample_sim])
      (by norm_num [sample_grid, sample_sim])
      (by norm_num [sample_grid, sample_sim])
      (by decide) (by decide) (by decide) (by decide)
      (by norm_num [sample_grid, sample_at, sample_sim, sample_particle])
      (by norm_num [sample_grid, sample_at, sample_sim, sample_particle])
      (by norm_num [sample_grid, sample_at, sample_sim, sample_particle])).1⟩

/-- Instance of the wrap-around: the position `(1, -5, 4)` shifted along `x` by the box
length 10. -/
theorem rootbox_shift_by_box_length_witness :
    (0 < sample_grid.root_size ∧
      sample_grid.boxsize.x = sample_grid.root_size * sample_grid.root_nx ∧
      (-(sample_grid.boxsize.x / 2) ≤ (sample_at 1 (-5) 4).x ∧
        (sample_at 1 (-5) 4).x < sample_grid.boxsize.x / 2)) ∧
    reb_get_rootbox_for_particle sample_grid
        { sample_at 1 (-5) 4 with x := (sample_at 1 (-5) 4).x + sample_grid.boxsize.x } =
      reb_get_rootbox_for_particle sample_grid (sample_at 1 (-5) 4) :=
  ⟨⟨by decide,
      by norm_num [sample_grid, sample_sim],
      by norm_num [sample_grid, sample_at, sample_sim, sample_particle]⟩,
    (rootbox_shift_by_box_length sample_grid (sample_at 1 (-5) 4) (by decide)
      (by norm_num [sample_grid, sample_sim])
      (by norm_num [sample_grid, sample_sim])
      (by norm_num [sample_grid, sample_sim])
      (by decide) (by decide) (by decide) (by decide)
      (by norm_num [sample_grid, sample_at, sample_sim, sample_particle])
      (by norm_num [sample_grid, sample_at, sample_sim, sample_particle])
      (by norm_num [sample_grid, sample_at, sample_sim, sample_particle])).2.1⟩

/-- Instance of claim C14: an empty and a three-particle simulation without root grid. -/
theorem rootbox_unset_and_pure_witness :
    ((sample_sim []).root_size = (sample_sim sample_three).root_size ∧
      (sample_sim []).boxsize = (sample_sim sample_three).boxsize ∧
      (sample_at 1 2 3).x = ({ sample_at 1 2 3 with m := 5 } : reb_particle).x) ∧
    (((sample_sim []).root_size = -1 →
        reb_get_rootbox_for_particle (sample_sim []) (sample_at 1 2 3) = some 0) ∧
      reb_get_rootbox_for_particle (sample_sim []) (sample_at 1 2 3) =
        reb_get_rootbox_for_particle (sample_sim sample_three) { sample_at 1 2 3 with m := 5 }) :=
  ⟨⟨rfl, rfl, rfl⟩,
    rootbox_unset_and_pure (sample_sim []) (sample_sim sample_three) (sample_at 1 2 3)
      { sample_at 1 2 3 with m := 5 } rfl rfl rfl rfl rfl rfl rfl rfl⟩

/-- Counterexample to claim C15 as stated: in the MPI build on process 1, the one in-box
particle added to the empty store belongs to process 0 and is queued; after this one
add `N = 0` and the capacity is 0, not 128. -/
theorem reb_add_all_capacity_queued :
    ((sample_sim []).N = 0 ∧ (sample_sim []).allocatedN = 0 ∧
      sample_mpi_env.reb_boundary_particle_is_in_box
        (reb_add_tracked sample_mpi_env (sample_sim []) (sample_particle 1 40))
        (sample_particle 1 40) ≠ 0) ∧
    (reb_add_all sample_mpi_env (sample_sim []) [sample_particle 1 40]).map
      (fun t => (t.N, t.allocatedN)) = some (0, 0) := by
  decide

/-- Instance of claim C15 as amended: 130 adds in the single-process build. -/
theorem reb_add_all_capacity_local_witness :
    ((sample_sim []).N = 0 ∧ (sample_sim []).allocatedN = 0 ∧ (sample_sim []).particles = [] ∧
      (130 : Nat) ≤ sample_run.length) ∧
    ∃ t, reb_add_all sample_env (sample_sim []) (sample_run.take 130) = some t ∧
      t.N = (130 : Nat) ∧
      t.allocatedN = 128 * ⌈((130 : Nat) : ℚ) / 128⌉ ∧
      (∀ (i : Nat) (pt : reb_particle), i < 130 → sample_run[i]? = some pt →
        load t.particles (i : Int) =
          some { pt with ap := none, sim := some (sample_sim []).self }) ∧
      (130 ≤ 130 → t.allocatedN = if 130 = 0 then 0 else if 130 ≤ 128 then 128 else 256) :=
  ⟨⟨rfl, rfl, rfl, by simp [sample_run]⟩,
    reb_add_all_capacity_local sample_env (sample_sim []) sample_run rfl rfl rfl
      (fun k t pt hpt _ => by
        have hmem : pt ∈ sample_run := List.mem_iff_getElem?.mpr ⟨k, hpt⟩
        have hpt' : pt = sample_particle 1 40 := List.eq_of_mem_replicate hmem
        subst hpt'
        exact ⟨by simp [sample_env, sample_particle], Or.inl rfl⟩)
      130 (by simp [sample_run])⟩

/-- Counterexample to claim C17 as stated: with three particles, all active
(`N_active = N = 3`), the removal of index 0 returns 1 and leaves `N = 2` below
`N_active = 3`, with either flag. -/
theorem reb_remove_N_active_exceeds_N :
    (0 ≤ sample_all_active.N_active ∧ sample_all_active.N_active ≤ sample_all_active.N) ∧
    (reb_remove sample_all_active 0 0).map (fun r => (r.1, r.2.N, r.2.N_active)) =
      some (1, 2, 3) ∧
    (reb_remove sample_all_active 2 1).map (fun r => (r.1, r.2.N, r.2.N_active)) =
      some (1, 2, 3) := by
  refine ⟨by decide, by decide, ?_⟩
  simp [reb_remove, reb_remove_shift, sample_all_active, sample_sim, sample_three]

/-- Instance of claim C17 as amended: three particles, one of them active. -/
theorem reb_remove_keeps_N_active_witness :
    (sample_one_active.N_active = -1 ∨
      (0 ≤ sample_one_active.N_active ∧ sample_one_active.N_active < sample_one_active.N) ∨
      (0 ≤ sample_one_active.N_active ∧ sample_one_active.N_active ≤ sample_one_active.N ∧
        sample_one_active.N = 1)) ∧
    reb_remove sample_one_active 0 0 = some (1, { sample_one_active with
      N := 2, particles := [sample_particle 3 10, sample_particle 2 20, sample_particle 3 10] }) ∧
    (({ sample_one_active with N := 2, particles :=
          [sample_particle 3 10, sample_particle 2 20, sample_particle 3 10] }
        : reb_simulation).N_active = sample_one_active.N_active ∧
      (({ sample_one_active with N := 2, particles :=
          [sample_particle 3 10, sample_particle 2 20, sample_particle 3 10] }
        : reb_simulation).N_active = -1 ∨
       (0 ≤ ({ sample_one_active with N := 2, particles :=
          [sample_particle 3 10, sample_particle 2 20, sample_particle 3 10] }
        : reb_simulation).N_active ∧
        ({ sample_one_active with N := 2, particles :=
          [sample_particle 3 10, sample_particle 2 20, sample_particle 3 10] }
        : reb_simulation).N_active ≤
        ({ sample_one_active with N := 2, particles :=
          [sample_particle 3 10, sample_particle 2 20, sample_particle 3 10] }
        : reb_simulation).N))) :=
  ⟨by decide, by decide,
    (reb_remove_keeps_N_active sample_one_active _ sample_one_active 0 10 0 (by decide)).1
      (by decide)⟩

/-- Instance of claim C18: the radii 3, 5, 4 added to an empty store. -/
theorem reb_add_all_tracks_two_largest_witness :
    (sample_env.COLLISIONS_NONE = false ∧ store_ok (sample_sim []) ∧
      (sample_sim []).max_radius_0 = 0 ∧ (sample_sim []).max_radius_1 = 0) ∧
    ∃ s', reb_add_all sample_env (sample_sim [])
        [sample_particle 3 1, sample_particle 5 2, sample_particle 4 3] = some s' ∧
      two_largest (0 :: 0 ::
        [sample_particle 3 1, sample_particle 5 2, sample_particle 4 3].map reb_particle.r)
        s'.max_radius_0 s'.max_radius_1 ∧
      s'.max_radius_1 ≤ s'.max_radius_0 :=
  ⟨⟨rfl, by decide, rfl, rfl⟩,
    (reb_add_all_tracks_two_largest sample_env (sample_sim [])
      [sample_particle 3 1, sample_particle 5 2, sample_particle 4 3] rfl (by decide)
      (fun _ _ h => absurd h (by decide)) rfl rfl).1⟩

/-- Instance of claim C19: on process 1 of 2, a particle whose cell 0 belongs to
process 0. -/
theorem reb_add_mpi_gate_witness :
    (sample_mpi_env.MPI = true ∧ 0 < Int.tdiv sample_mpi_env.root_n sample_mpi_env.mpi_num ∧
      reb_get_rootbox_for_particle (sample_sim sample_three) (sample_particle 1 40) = some 0 ∧
      Int.tdiv 0 (Int.tdiv sample_mpi_env.root_n sample_mpi_env.mpi_num) ≠
        sample_mpi_env.mpi_id ∧
      (sample_sim sample_three).N ≥ (sample_sim sample_three).N_active) ∧
    ∃ s', reb_add sample_mpi_env (sample_sim sample_three) (sample_particle 1 40) = some s' ∧
      s'.send_queue = (sample_sim sample_three).send_queue ++
        [(sample_particle 1 40, Int.tdiv 0 (Int.tdiv sample_mpi_env.root_n sample_mpi_env.mpi_num))] ∧
      s'.N = (sample_sim sample_three).N ∧
      s'.allocatedN = (sample_sim sample_three).allocatedN ∧
      s'.particles = (sample_sim sample_three).particles :=
  ⟨⟨rfl, by decide, by decide, by decide, by decide⟩,
    (reb_add_mpi_gate sample_mpi_env (sample_sim sample_three) (sample_particle 1 40) 0
      rfl (by decide) (by decide)).1 ⟨by decide, by decide⟩⟩

end Rebound

